import Mathlib

/-!
# gopts: the definition registry and the argument scan

A shallow embedding of `gopts.go`.

* Go strings are Lean `String`s (valid UTF-8 text).  Go's `len(s)` and `s[i]`
  work on bytes, so they are computed from the UTF-8 encoding (`bytes`).
* A Go `map` is an association list; writing a key replaces the entry in place
  or appends a new one, reading an absent key yields the zero value.  The order
  of the list stands for the order in which `range` visits the map, which Go
  leaves unspecified; statements quantify over every list, and `getSflag_perm`
  shows that the order does not matter to `Get_sflag` as long as no two flags
  with a short form share their first byte.
* The loop of `Options.Parse` is the step function `body` iterated by `run`;
  `exec_run` shows that the fuel `exec` hands to `run` always suffices.
* The struct behind `obj` is the list of its fields.  The functions of Go's
  standard library that the schema layer calls are the parameter `Std`;
  `asciiStd` is used to evaluate ASCII examples.
* `Options.Help` is a function of the registry to the text it writes; only its
  padding loop without an increment needs fuel.
* A call that does not return is an `Outcome`: `fatal` for `Options.Err`
  (which ends in `os.Exit(-1)`), `panic` for a Go run-time panic, `help` for a
  call of `Options.Help`.
-/

namespace Gopts

/-! ## Go strings -/

/-- The UTF-8 encoding of one code point. -/
def utf8 (c : Char) : List Nat :=
  let n := c.toNat
  if n < 0x80 then [n]
  else if n < 0x800 then [0xC0 + n / 0x40, 0x80 + n % 0x40]
  else if n < 0x10000 then [0xE0 + n / 0x1000, 0x80 + n / 0x40 % 0x40, 0x80 + n % 0x40]
  else [0xF0 + n / 0x40000, 0x80 + n / 0x1000 % 0x40, 0x80 + n / 0x40 % 0x40, 0x80 + n % 0x40]

/-- The bytes of a list of code points. -/
def bytesOf : List Char → List Nat
  | [] => []
  | c :: cs => utf8 c ++ bytesOf cs

/-- The bytes of a Go string. -/
def bytes (s : String) : List Nat := bytesOf s.data

/-- Go `len(s)`: the number of bytes. -/
def len (s : String) : Nat := (bytes s).length

/-- Go `s[i]`: the byte at offset `i`; `none` is the index-out-of-range panic. -/
def byteAt (s : String) (i : Nat) : Option Nat := (bytes s)[i]?

/-- Go `s[k:]`, used by the scan only behind `k` one-byte characters (the dashes),
where dropping `k` bytes is dropping `k` code points. -/
def sliceFrom (s : String) (k : Nat) : String := String.mk (s.data.drop k)

/-- Go `range s`: the code points of the string. -/
def runes (s : String) : List Nat := s.data.map Char.toNat

/-- The byte `'-'`. -/
def dash : Nat := 45

/-! ## Outcomes -/

/-- How a call ends. -/
inductive Outcome (α : Type) where
  /-- the call returns a value -/
  | returned (a : α)
  /-- `Options.Err(message, hint)`: diagnostics, then `os.Exit(-1)` -/
  | fatal (message hint : String)
  /-- a Go run-time panic -/
  | panic (message : String)
  /-- `Options.Help()` is called -/
  | help
  deriving DecidableEq, Repr

/-! ## Maps -/

/-- Go `m[k] = v` on an association list. -/
def mapSet {β : Type} : List (String × β) → String → β → List (String × β)
  | [], k, v => [(k, v)]
  | (k0, v0) :: m, k, v => if k0 = k then (k, v) :: m else (k0, v0) :: mapSet m k v

/-- Go `m[k]` on an association list, `zero` for an absent key. -/
def mapGet {β : Type} (zero : β) : List (String × β) → String → β
  | [], _ => zero
  | (k0, v0) :: m, k => if k0 = k then v0 else mapGet zero m k

/-- A `map[string]string`. -/
abbrev StrMap := List (String × String)

/-- Go `m[k]` for a `map[string]string`. -/
def StrMap.get (m : StrMap) (k : String) : String := mapGet "" m k

/-! ## The registry -/

/-- Go `flag_info`. -/
structure flag_info where
  long : Bool
  short : Bool
  takes_value : Bool
  desc : String
  deriving DecidableEq, Repr

/-- Go `flag_info{}`. -/
def flag_info.zero : flag_info := ⟨false, false, false, ""⟩

/-- Go `value_info`. -/
structure value_info where
  name : String
  desc : String
  deriving DecidableEq, Repr

/-- Go `Options`. -/
structure Options where
  flags : List (String × flag_info)
  optional_values : List value_info
  required_values : List value_info
  description : String
  deriving DecidableEq, Repr

/-- Go `opt.flags[name]`. -/
def Options.flag (opt : Options) (name : String) : flag_info :=
  mapGet flag_info.zero opt.flags name

/-- Go `Opts`. -/
def Opts (description : String) : Options :=
  { flags := [], optional_values := [], required_values := [], description := description }

/-- The loop `for _, value := range value { _value = value }` over the variadic argument. -/
def lastValue (value : List Bool) : Bool := value.foldl (fun _ v => v) true

/-- Go `Options.Optional`. -/
def Options.Optional (opt : Options) (name desc : String) : Outcome Options :=
  if name = "" then .panic "please ensure that all flags contain a name"
  else if opt.optional_values.any (fun info => info.name = name) then
    .panic ("invalid optional value added 2 items can not share the name " ++ name)
  else .returned { opt with optional_values := opt.optional_values ++ [⟨name, desc⟩] }

/-- Go `Options.Required`. -/
def Options.Required (opt : Options) (name desc : String) : Outcome Options :=
  if name = "" then .panic "please ensure that all values contain a name"
  else if opt.required_values.any (fun info => info.name = name) then
    .panic ("invalid required value added 2 items can not share the name " ++ name)
  else .returned { opt with required_values := opt.required_values ++ [⟨name, desc⟩] }

/-- Go `Options.Flag`. -/
def Options.Flag (opt : Options) (name desc : String) (value : List Bool) : Outcome Options :=
  if name = "" then .panic "please ensure that all flags contain a name"
  else if opt.flag name ≠ flag_info.zero then
    .panic ("invalid flag added 2 flags can not share the name " ++ name)
  else .returned { opt with flags := mapSet opt.flags name ⟨true, true, lastValue value, desc⟩ }

/-- The loop of `Options.Short_flag` over the map: `some true` when it meets an entry with a
short form whose `key[0]` equals `name[0]`, `none` when an index is out of range. -/
def shortOwned : List (String × flag_info) → String → Option Bool
  | [], _ => some false
  | (key, value) :: m, name =>
    match byteAt key 0, byteAt name 0 with
    | some k, some b => if k = b && value.short then some true else shortOwned m name
    | _, _ => none

/-- The text of `%c` for `name[0]`. -/
def firstByteText (name : String) : String :=
  match byteAt name 0 with
  | some b => String.singleton (Char.ofNat b)
  | none => ""

/-- Go `Options.Short_flag`. -/
def Options.Short_flag (opt : Options) (name desc : String) (value : List Bool) :
    Outcome Options :=
  if name = "" then .panic "please ensure that all flags contain a name"
  else
    match shortOwned opt.flags name with
    | none => .panic "index out of range [0] with length 0"
    | some true =>
      .panic ("invalid the short flag " ++ firstByteText name ++
        " has already been defined please define another flag for this value")
    | some false =>
      let info : flag_info :=
        if opt.flag name ≠ flag_info.zero then { opt.flag name with short := true }
        else ⟨false, true, lastValue value, desc⟩
      .returned { opt with flags := mapSet opt.flags name info }

/-- Go `Options.Long_flag`. -/
def Options.Long_flag (opt : Options) (name desc : String) (value : List Bool) :
    Outcome Options :=
  if name = "" then .panic "please ensure that all flags contain a name"
  else if opt.flag name = flag_info.zero then
    .panic ("invalid flag added 2 flags can not share the name " ++ name)
  else
    let info : flag_info :=
      if opt.flag name ≠ flag_info.zero then { opt.flag name with long := true }
      else ⟨true, false, lastValue value, desc⟩
    .returned { opt with flags := mapSet opt.flags name info }

/-- Go `Options.Get_sflag`: `none` is the panic of `key[0]` on an empty key. -/
def getSflag : List (String × flag_info) → Nat → Option (String × flag_info)
  | [], _ => some ("", flag_info.zero)
  | (key, value) :: m, name =>
    match byteAt key 0 with
    | none => none
    | some k => if k = name && value.short then some (key, value) else getSflag m name

/-- Go `Options.Get_sflag`. -/
def Options.Get_sflag (opt : Options) (name : Nat) : Option (String × flag_info) :=
  getSflag opt.flags name

/-! ## The scan of `Options.Parse` -/

/-- The three mappings `Options.Parse` returns: flags, required, optional. -/
abbrev Parsed := StrMap × StrMap × StrMap

/-- The local variables of `Options.Parse` at the head of its loop.  `rest` is
`args[index:]`, the tokens from `args[index]` on, so `len(args) - index` is `rest.length`. -/
structure PState where
  rest : List String
  flags : StrMap
  required : StrMap
  optional : StrMap
  parsing_flags : Bool
  parsing_required : Bool
  parsing_optional : Bool
  value_index : Nat
  deriving DecidableEq, Repr

/-- The variables as `Options.Parse` declares them, for the arguments behind the program
name. -/
def PState.init (args : List String) : PState :=
  { rest := args, flags := [], required := [], optional := [],
    parsing_flags := true, parsing_required := false, parsing_optional := false,
    value_index := 0 }

/-- The message of the malformed-token error. -/
def formatError (tok : String) : String :=
  "Invalid argument " ++ tok ++ " all flags must be in the fromat -<name> or --<name>."

/-- The hint of the unknown-flag error. -/
def runHelpHint : String := "Please run --help to see the list of options that"

/-- Lines 348-353 and 361-366: the flag `name` met at `args[index]`, with `more` the tokens
behind it.  `len(args)-len(opt.required_values) > index+1` is
`opt.required_values.length < more.length`; `args[index+1][0]` panics on an empty token. -/
def attach (opt : Options) (s : PState) (name : String) (more : List String) :
    Outcome PState :=
  if opt.required_values.length < more.length then
    match more with
    | [] => .panic "index out of range"
    | nxt :: more2 =>
      match byteAt nxt 0 with
      | none => .panic "index out of range [0] with length 0"
      | some b =>
        if b ≠ dash && (opt.flag name).takes_value then
          .returned { s with rest := more2, flags := mapSet s.flags name nxt }
        else .returned { s with rest := more, flags := mapSet s.flags name "true" }
  else .returned { s with rest := more, flags := mapSet s.flags name "true" }

/-- Lines 368-374: the loop over the characters of a group of short flags. -/
def group (opt : Options) (tok : String) : List Nat → StrMap → Outcome StrMap
  | [], flags => .returned flags
  | value :: values, flags =>
    match opt.Get_sflag value with
    | none => .panic "index out of range [0] with length 0"
    | some (full_name, _) =>
      if full_name = "" then .fatal ("Invalid argument " ++ tok ++ ".") runHelpHint
      else group opt tok values (mapSet flags full_name "true")

/-- One pass through the body of the loop of `Options.Parse` at `args[index] = tok`, with
`more` the tokens behind it; `returned` is the state at the next test of the loop
condition (after `index++`). -/
def body (opt : Options) (s : PState) (tok : String) (more : List String) : Outcome PState :=
  if s.parsing_flags then
    if len tok < 2 then .fatal (formatError tok) ""
    else if byteAt tok 0 ≠ some dash then
      -- `index = index - 1`, so `len(args)-index` is one more than the tokens left
      if opt.required_values.length > (tok :: more).length + 1 then
        .fatal "Invalid command not all required values are given."
          "Please run --help to see the structure of the command you need to run"
      else .returned { s with parsing_flags := false, parsing_required := true }
    else if byteAt tok 1 = some dash then
      if len tok < 3 then .fatal (formatError tok) ""
      else
        let name := sliceFrom tok 2
        if opt.flag name = flag_info.zero || !(opt.flag name).long then
          .fatal ("Invalid argument " ++ tok ++ ".") runHelpHint
        else attach opt s name more
    else
      let name := sliceFrom tok 1
      if len name = 1 then
        match byteAt name 0 with
        | none => .panic "index out of range"
        | some c =>
          match opt.Get_sflag c with
          | none => .panic "index out of range [0] with length 0"
          | some (full_name, _) =>
            if full_name = "" then .fatal ("Invalid argument " ++ tok ++ ".") runHelpHint
            else attach opt s full_name more
      else
        match group opt tok (runes name) s.flags with
        | .returned flags => .returned { s with rest := more, flags := flags }
        | .fatal m h => .fatal m h
        | .panic e => .panic e
        | .help => .help
  else if s.parsing_required then
    if s.value_index ≥ opt.required_values.length then
      .returned { s with parsing_required := false, parsing_optional := true }
    else
      match opt.required_values[s.value_index]? with
      | none => .panic "index out of range"
      | some key =>
        .returned { s with rest := more, required := mapSet s.required key.name tok,
                           value_index := s.value_index + 1 }
  else if s.parsing_optional then
    -- `value_index = 0`
    match opt.optional_values[0]? with
    | none => .panic "index out of range [0] with length 0"
    | some key =>
      .returned { s with rest := more, optional := mapSet s.optional key.name tok,
                         value_index := 0 + 1 }
  else .returned { s with rest := more }

/-- Lines 394-397, behind the loop. -/
def finish (s : PState) : Outcome Parsed :=
  if s.flags.get "help" ≠ "" then .help else .returned (s.flags, s.required, s.optional)

/-- The loop of `Options.Parse`, at most `fuel` tests of its condition; `none` when the
fuel is used up. -/
def run (opt : Options) : Nat → PState → Option (Outcome Parsed)
  | 0, _ => none
  | fuel + 1, s =>
    match s.rest with
    | [] => some (finish s)
    | tok :: more =>
      match body opt s tok more with
      | .returned s1 => run opt fuel s1
      | .fatal m h => some (.fatal m h)
      | .panic e => some (.panic e)
      | .help => some .help

/-- A bound on the passes left: a pass drops a token or moves to the next state. -/
def PState.measure (s : PState) : Nat :=
  3 * s.rest.length + (if s.parsing_flags then 2 else if s.parsing_required then 1 else 0)

/-- The loop of `Options.Parse` from state `s` to its end (`exec_run` below shows that the
fuel given here is never used up). -/
def exec (opt : Options) (s : PState) : Outcome Parsed :=
  match run opt (s.measure + 1) s with
  | some o => o
  | none => .panic "unreachable"

/-- Lines 320-325: the registry with the flag `help`. -/
def Options.withHelp (opt : Options) : Outcome Options :=
  match opt.Get_sflag 104 with
  | none => .panic "index out of range [0] with length 0"
  | some (h_name, _) =>
    if h_name = "" then opt.Flag "help" "Prints this help message." [false]
    else if h_name ≠ "help" then opt.Long_flag "help" "Prints this help message." [false]
    else .returned opt

/-- Go `Options.Parse`. -/
def Options.Parse (opt : Options) (args : List String) : Outcome Parsed :=
  match args with
  | [] => .panic "slice bounds out of range [1:0]"
  | _ :: args =>
    match opt.withHelp with
    | .returned opt1 => exec opt1 (PState.init args)
    | .fatal m h => .fatal m h
    | .panic e => .panic e
    | .help => .help

/-! ## Registries built by the declaration operations -/

/-- One declaration call on a registry. -/
inductive Decl where
  | Required (name desc : String)
  | Optional (name desc : String)
  | Flag (name desc : String) (value : List Bool)
  | Short_flag (name desc : String) (value : List Bool)
  | Long_flag (name desc : String) (value : List Bool)
  deriving DecidableEq, Repr

/-- The declaration call `d` on `opt`. -/
def Options.declare (opt : Options) : Decl → Outcome Options
  | .Required name desc => opt.Required name desc
  | .Optional name desc => opt.Optional name desc
  | .Flag name desc value => opt.Flag name desc value
  | .Short_flag name desc value => opt.Short_flag name desc value
  | .Long_flag name desc value => opt.Long_flag name desc value

/-- A chain of declaration calls, stopping at the first that does not return. -/
def Options.declareAll (opt : Options) : List Decl → Outcome Options
  | [] => .returned opt
  | d :: ds =>
    match opt.declare d with
    | .returned opt1 => opt1.declareAll ds
    | .fatal m h => .fatal m h
    | .panic e => .panic e
    | .help => .help

/-! ## Traces of the scan -/

/-- The loop started in the first state comes to the second state at a later test of its
condition. -/
inductive Reaches (opt : Options) : PState → PState → Prop where
  | refl (s : PState) : Reaches opt s s
  | step {s s1 s2 : PState} {tok : String} {more : List String} :
      s.rest = tok :: more → body opt s tok more = .returned s1 → Reaches opt s1 s2 →
      Reaches opt s s2

/-- The loop of `opt.Parse args` passes through state `s`. -/
def Options.Visits (opt : Options) (args : List String) (s : PState) : Prop :=
  ∃ opt1, opt.withHelp = .returned opt1 ∧ Reaches opt1 (PState.init args.tail) s

/-- The registry of the end-to-end scenario: required `file`, optional `mode`, and the flag
`verbose` with both forms and no value. -/
def scenarioRegistry : Options :=
  { flags := [("verbose", ⟨true, true, false, ""⟩)],
    optional_values := [⟨"mode", ""⟩],
    required_values := [⟨"file", ""⟩],
    description := "" }

/-- The state of the scan of the end-to-end scenario behind `-v`. -/
def scenarioBehindFlags : PState :=
  { rest := ["input.txt", "fast"], flags := [("verbose", "true")], required := [],
    optional := [], parsing_flags := true, parsing_required := false,
    parsing_optional := false, value_index := 0 }

/-- The registry with the value-taking flag `name` and the required value `req`. -/
def nameRegistry : Options :=
  { flags := [("name", ⟨true, true, true, ""⟩)], optional_values := [],
    required_values := [⟨"req", ""⟩], description := "" }

/-- The registry with the flag `host`. -/
def hostRegistry : Options :=
  { flags := [("host", ⟨true, true, true, ""⟩)], optional_values := [],
    required_values := [], description := "" }

/-- The registry with the value-taking flags `alpha` and `beta`. -/
def alphaBetaRegistry : Options :=
  { flags := [("alpha", ⟨true, true, true, ""⟩), ("beta", ⟨true, true, true, ""⟩)],
    optional_values := [], required_values := [], description := "" }

/-- What the declaration operations keep true of a registry: flag names are non-empty and
the names within each list of values are pairwise distinct. -/
def Options.WellFormed (opt : Options) : Prop :=
  (∀ kv ∈ opt.flags, kv.1 ≠ "") ∧
  (opt.required_values.map value_info.name).Nodup ∧
  (opt.optional_values.map value_info.name).Nodup

/-- The declared names of a list of values. -/
def names (vs : List value_info) : List String := vs.map value_info.name

/-- Tokens assigned one per name, in order, until the names or the tokens run out. -/
def fill (m : StrMap) : List String → List String → StrMap
  | k :: ks, t :: ts => fill (mapSet m k t) ks ts
  | _, _ => m

/-! ## The schema layer: library functions -/

/-- The functions of Go's standard library that the schema layer and the help text call,
taken as given: `unicode.ToLower` and `unicode.ToUpper` (which `strings.ToLower` and
`strings.ToUpper` apply to every code point), `strconv.ParseFloat(s, 64)` (the bits of the
`float64`, `none` for an error), the conversion `float32(x)` and `strconv.IntSize`. -/
structure Std where
  ToLower : Char → Char
  ToUpper : Char → Char
  ParseFloat : String → Option Nat
  Float32 : Nat → Nat
  IntSize : Nat

/-- The library on ASCII text and a 64-bit platform: the case mappings of the ASCII letters.
It is used on ASCII inputs without float fields only; `ParseFloat` is not modelled by it. -/
def asciiStd : Std :=
  { ToLower := Char.toLower, ToUpper := Char.toUpper, ParseFloat := fun _ => none,
    Float32 := id, IntSize := 64 }

/-- Go `strings.ToLower`. -/
def Std.lower (std : Std) (s : String) : String := String.mk (s.data.map std.ToLower)

/-- Go `strings.ToUpper`. -/
def Std.upper (std : Std) (s : String) : String := String.mk (s.data.map std.ToUpper)

/-- Go `strings.Split(s, sep)` for a separator of one character, on the code points. -/
def splitChars (sep : Char) : List Char → List (List Char)
  | [] => [[]]
  | c :: cs =>
    if c = sep then [] :: splitChars sep cs
    else
      match splitChars sep cs with
      | [] => [[c]]
      | p :: ps => (c :: p) :: ps

/-- Go `strings.Split(s, sep)` for a separator of one character. -/
def Split (s : String) (sep : Char) : List String := (splitChars sep s.data).map String.mk

/-- Go `strings.Contains(s, sep)` for a separator of one character. -/
def Contains (s : String) (sep : Char) : Bool := s.data.contains sep

/-- The value of the decimal digits `ds`, `none` when there is none or one is not a digit. -/
def digits : List Char → Option Nat
  | [] => none
  | ds => ds.foldl (fun acc c =>
      match acc with
      | none => none
      | some n => if '0' ≤ c ∧ c ≤ '9' then some (n * 10 + (c.toNat - 48)) else none) (some 0)

/-- Go `strconv.Atoi` for an `int` of `intSize` bits: an optional sign and decimal digits,
in range; `none` is an error. -/
def Atoi (intSize : Nat) (s : String) : Option Int :=
  let signed : Bool × List Char :=
    match s.data with
    | '-' :: r => (true, r)
    | '+' :: r => (false, r)
    | r => (false, r)
  match digits signed.2 with
  | none => none
  | some n =>
    let v : Int := if signed.1 then -(n : Int) else (n : Int)
    if -(2 ^ (intSize - 1) : Int) ≤ v ∧ v < (2 ^ (intSize - 1) : Int) then some v else none

/-- Go `strconv.ParseBool`; `none` is an error. -/
def ParseBool (str : String) : Option Bool :=
  if str ∈ ["1", "t", "T", "TRUE", "true", "True"] then some true
  else if str ∈ ["0", "f", "F", "FALSE", "false", "False"] then some false
  else none

/-! ## The schema layer: records -/

/-- The kinds of `reflect.Kind` that the write-back tells apart; `Other` is any kind that
is not listed. -/
inductive Kind where
  | Bool | Int | Int8 | Int16 | Int32 | Int64
  | Uint | Uint8 | Uint16 | Uint32 | Uint64
  | Float32 | Float64 | String | Other
  deriving DecidableEq, Repr

/-- The value of a field: a signed or unsigned integer, the bits of a float, a boolean, a
string, or a value of another kind. -/
inductive GoValue where
  | int (v : Int)
  | uint (v : Nat)
  | float (bits : Nat)
  | bool (b : Bool)
  | string (s : String)
  | other (v : Nat)
  deriving DecidableEq, Repr

/-- One field of the struct behind `obj`: `field.Name`, `field.IsExported()`,
`field.Tag.Get("gopts")`, `field.Type.Kind()` and the value stored in it. -/
structure Field where
  Name : String
  exported : Bool
  tag : String
  kind : Kind
  value : GoValue
  deriving DecidableEq, Repr

/-- Go `sflag_element`. -/
abbrev sflag_element : Nat := 0
/-- Go `lflag_element`. -/
abbrev lflag_element : Nat := 1
/-- Go `flag_element`. -/
abbrev flag_element : Nat := 2
/-- Go `required_element`. -/
abbrev required_element : Nat := 3
/-- Go `optional_element`. -/
abbrev optional_element : Nat := 4

/-- Go `_parse_info`. -/
structure parse_info where
  index : Nat
  name : String
  description : String
  typ : Nat
  deriving DecidableEq, Repr

/-! ## The schema layer: the tag grammar -/

/-- Go `info[len(info)-1] = f(info[len(info)-1])`; `none` is the index panic on an empty
slice. -/
def setLast (info : List parse_info) (f : parse_info → parse_info) :
    Option (List parse_info) :=
  match info.reverse with
  | [] => none
  | last :: front => some (front.reverse ++ [f last])

/-- The block `if added { info[len(info)-1].x = v } else { info = append(info, fresh);
added = true }` that every recognized token runs. -/
def record (info : List parse_info) (added : Bool) (f : parse_info → parse_info)
    (fresh : parse_info) : Outcome (List parse_info × Bool) :=
  if added then
    match setLast info f with
    | none => .panic "index out of range [-1]"
    | some info1 => .returned (info1, added)
  else .returned (info ++ [fresh], true)

/-- The body of the loop over the tokens of one tag, for the field `i` called `fieldName`. -/
def tagToken (std : Std) (i : Nat) (fieldName : String) (tag_val : String)
    (info : List parse_info) (added : Bool) : Outcome (List parse_info × Bool) :=
  let ltag_val := std.lower tag_val
  if Contains ltag_val '=' then
    match Split ltag_val '=' with
    | [key, val] =>
      if key = "desc" ∨ key = "description" then
        record info added (fun p => { p with description := val })
          ⟨i, fieldName, val, required_element⟩
      else if key = "name" then
        record info added (fun p => { p with name := val }) ⟨i, val, "", required_element⟩
      else if key = "flag" then
        if val = "short" then
          record info added (fun p => { p with typ := sflag_element })
            ⟨i, fieldName, "", sflag_element⟩
        else if val = "long" then
          record info added (fun p => { p with typ := lflag_element })
            ⟨i, fieldName, "", lflag_element⟩
        else
          record info added (fun p => { p with typ := flag_element })
            ⟨i, fieldName, "", flag_element⟩
      else .returned (info, added)
    | _ => .returned (info, added)
  else if ltag_val = "flag" then
    record info added (fun p => { p with typ := flag_element }) ⟨i, fieldName, "", flag_element⟩
  else if ltag_val = "sflag" ∨ ltag_val = "short_flag" then
    record info added (fun p => { p with typ := sflag_element })
      ⟨i, fieldName, "", sflag_element⟩
  else if ltag_val = "lflag" ∨ ltag_val = "long_flag" then
    record info added (fun p => { p with typ := lflag_element })
      ⟨i, fieldName, "", lflag_element⟩
  else if ltag_val = "optional" then
    record info added (fun p => { p with typ := optional_element })
      ⟨i, fieldName, "", optional_element⟩
  else if ltag_val = "required" then
    record info added (fun p => { p with typ := required_element })
      ⟨i, fieldName, "", required_element⟩
  else .returned (info, added)

/-- The loop `for _, tag_val := range tags`. -/
def tagLoop (std : Std) (i : Nat) (fieldName : String) :
    List String → List parse_info → Bool → Outcome (List parse_info × Bool)
  | [], info, added => .returned (info, added)
  | tag_val :: tags, info, added =>
    match tagToken std i fieldName tag_val info added with
    | .returned (info1, added1) => tagLoop std i fieldName tags info1 added1
    | .fatal m h => .fatal m h
    | .panic e => .panic e
    | .help => .help

/-! ## The schema layer: registration and write-back -/

/-- The `switch info[len(info)-1].typ` at the end of the pass over one field: the declaration
call for the last entry of `info`; `kind` is `field.Type.Kind()`. -/
def registerLast (opts : Options) (info : List parse_info) (kind : Kind) : Outcome Options :=
  match info.getLast? with
  | none => .panic "index out of range [-1]"
  | some last =>
    if last.typ = required_element then opts.Required last.name last.description
    else if last.typ = optional_element then opts.Optional last.name last.description
    else if last.typ = flag_element then
      opts.Flag last.name last.description [decide (kind ≠ Kind.Bool)]
    else if last.typ = sflag_element then
      opts.Short_flag last.name last.description [decide (kind ≠ Kind.Bool)]
    else if last.typ = lflag_element then
      opts.Long_flag last.name last.description [decide (kind ≠ Kind.Bool)]
    else .returned opts

/-- The loop `for i := 0; i < val.NumField(); i++` of `Parse`, from field `i` on. -/
def registerFields (std : Std) :
    Nat → List Field → Options → List parse_info → Outcome (Options × List parse_info)
  | _, [], opts, info => .returned (opts, info)
  | i, field :: fields, opts, info =>
    if !field.exported then registerFields std (i + 1) fields opts info
    else if field.tag = "" then registerFields std (i + 1) fields opts info
    else
      match tagLoop std i field.Name (Split field.tag ',') info false with
      | .returned (info1, _) =>
        match registerLast opts info1 field.kind with
        | .returned opts1 => registerFields std (i + 1) fields opts1 info1
        | .fatal m h => .fatal m h
        | .panic e => .panic e
        | .help => .help
      | .fatal m h => .fatal m h
      | .panic e => .panic e
      | .help => .help

/-- The string the write-back looks up for a binding, in the mapping its kind selects. -/
def elementValue (inf : parse_info) (flags required optional : StrMap) : String :=
  if inf.typ = required_element then required.get inf.name
  else if inf.typ = optional_element then optional.get inf.name
  else if inf.typ = flag_element ∨ inf.typ = sflag_element ∨ inf.typ = lflag_element then
    flags.get inf.name
  else ""

/-- The conversion of an integer to the signed type of `bits` bits. -/
def wrapInt (bits : Nat) (v : Int) : Int :=
  (v + 2 ^ (bits - 1)) % 2 ^ bits - 2 ^ (bits - 1)

/-- The conversion `uint64(ok)` followed by the one to the unsigned type of `bits` bits. -/
def wrapUint (bits : Nat) (v : Int) : Nat :=
  (v % 2 ^ 64).toNat % 2 ^ bits

/-- The width of the integer kinds. -/
def Std.bits (std : Std) : Kind → Nat
  | .Int | .Uint => std.IntSize
  | .Int8 | .Uint8 => 8
  | .Int16 | .Uint16 => 16
  | .Int32 | .Uint32 => 32
  | _ => 64

/-- The message of a coercion error. -/
def coercionError (std : Std) (inf : parse_info) : String :=
  "Invalid default value for option " ++ std.upper inf.name ++ "."

/-- The `switch val.Type().Field(inf.index).Type.Kind()` of the write-back, for a looked-up
string that is not empty. -/
def writeField (std : Std) (inf : parse_info) (element_value : String) (obj : List Field) :
    Outcome (List Field) :=
  match obj[inf.index]? with
  | none => .panic "reflect: Field index out of range"
  | some field =>
    match field.kind with
    | .Int | .Int8 | .Int16 | .Int32 | .Int64 =>
      match Atoi std.IntSize element_value with
      | none => .fatal (coercionError std inf) "Please ensure that it is an positive integer"
      | some ok =>
        .returned (obj.set inf.index
          { field with value := .int (wrapInt (std.bits field.kind) ok) })
    | .Uint | .Uint8 | .Uint16 | .Uint64 =>
      match Atoi std.IntSize element_value with
      | none => .fatal (coercionError std inf) "Please ensure that it is an integer"
      | some ok =>
        .returned (obj.set inf.index
          { field with value := .uint (wrapUint (std.bits field.kind) ok) })
    | .Float64 =>
      match std.ParseFloat element_value with
      | none => .fatal (coercionError std inf) "Please ensure that it is an integer"
      | some ok => .returned (obj.set inf.index { field with value := .float ok })
    | .Float32 =>
      match std.ParseFloat element_value with
      | none => .fatal (coercionError std inf) "Please ensure that it is an integer"
      | some ok => .returned (obj.set inf.index { field with value := .float (std.Float32 ok) })
    | .Bool =>
      .returned (obj.set inf.index
        { field with value := .bool ((ParseBool element_value).getD false) })
    | .String => .returned (obj.set inf.index { field with value := .string element_value })
    | _ => .returned obj

/-- The loop `for _, inf := range info` of `Parse`. -/
def writeBack (std : Std) (flags required optional : StrMap) :
    List parse_info → List Field → Outcome (List Field)
  | [], obj => .returned obj
  | inf :: info, obj =>
    if elementValue inf flags required optional ≠ "" then
      match writeField std inf (elementValue inf flags required optional) obj with
      | .returned obj1 => writeBack std flags required optional info obj1
      | .fatal m h => .fatal m h
      | .panic e => .panic e
      | .help => .help
    else writeBack std flags required optional info obj

/-- The registration pass of `Parse`: the registry and the bindings of the fields of `obj`. -/
def register (std : Std) (obj : List Field) (description : List String) :
    Outcome (Options × List parse_info) :=
  registerFields std 0 obj (Opts (description.foldl (fun desc val => desc ++ val) "")) []

/-- Go `Parse(obj, args, description...)`, for `obj` a pointer to a struct with the fields
`obj`; `returned` carries the fields as the call leaves them. -/
def Parse (std : Std) (obj : List Field) (args : List String) (description : List String) :
    Outcome (List Field) :=
  match register std obj description with
  | .returned (opts, info) =>
    match opts.Parse args with
    | .returned (flags, required, optional) => writeBack std flags required optional info obj
    | .fatal m h => .fatal m h
    | .panic e => .panic e
    | .help => .help
  | .fatal m h => .fatal m h
  | .panic e => .panic e
  | .help => .help

/-! ## The help text -/

/-- How a call of `Options.Help` ends. -/
inductive Exit where
  /-- the writes to the standard output, in order, followed by `os.Exit(0)` -/
  | status0 (written : List String)
  /-- a Go run-time panic -/
  | panic (message : String)
  deriving DecidableEq, Repr

/-- The ANSI codes. -/
def Blue : String := "\x1b[34m"
/-- The ANSI codes. -/
def Bold : String := "\x1b[1m"
/-- The ANSI codes. -/
def Reset : String := "\x1b[0m"
/-- The ANSI codes. -/
def Cyan : String := "\x1b[36m"

/-- The loop `for i := 0; i < diff; i++ { spacer = spacer + " " }`. -/
def spaces : Nat → String
  | 0 => ""
  | n + 1 => spaces n ++ " "

/-- The loop `for i < diff { spacer = spacer + " " }` of the rows of the required values
(lines 229-231), at most `fuel` tests of its condition; `none` when the fuel is used up. -/
def spacerLoop (diff : Nat) : Nat → Nat → String → Option String
  | 0, _, _ => none
  | fuel + 1, i, spacer =>
    if i < diff then spacerLoop diff fuel i (spacer ++ " ") else some spacer

/-- The loops that find `max_len`. -/
def maxLen (max_len : Nat) : List String → Nat
  | [] => max_len
  | name :: rest => maxLen (if len name > max_len then len name else max_len) rest

/-- The rows of the required values in the ARGS section. -/
def requiredRows (std : Std) (max_len fuel : Nat) : List value_info → Option (List String)
  | [] => some []
  | info :: rest =>
    match spacerLoop (max_len - len info.name) fuel 0 "" with
    | none => none
    | some spacer =>
      match requiredRows std max_len fuel rest with
      | none => none
      | some rows =>
        some (("\t" ++ Blue ++ "<" ++ std.upper info.name ++ ">" ++ Reset ++ "    " ++ spacer ++
          info.desc ++ "\n") :: rows)

/-- The rows of the optional values in the ARGS section. -/
def optionalRows (std : Std) (max_len : Nat) : List value_info → List String
  | [] => []
  | info :: rest =>
    ("\t" ++ Blue ++ "<" ++ std.upper info.name ++ ">" ++ Reset ++ "    " ++
      spaces (max_len - len info.name) ++ info.desc ++ "\n") :: optionalRows std max_len rest

/-- The rows of the OPTIONS section; `none` is the panic of `key[0]` on an empty key. -/
def flagRows (max_len : Nat) : List (String × flag_info) → Option (List String)
  | [] => some []
  | (key, value) :: rest =>
    match (if value.short then (byteAt key 0).map (fun _ => "-" ++ firstByteText key ++ ",")
           else some "   "), flagRows max_len rest with
    | some short, some rows =>
      some (("\t" ++ Blue) :: short ::
        (if value.long then
          " --" ++ key ++ Reset ++ " " ++ spaces (max_len - len key) ++ "    " ++ value.desc ++ "\n"
         else "   " ++ Reset ++ " " ++ spaces max_len ++ "    " ++ value.desc ++ "\n") :: rows)
    | _, _ => none

/-- Go `Options.Help`, with `procname` for `filepath.Base(os.Args[0])` and at most `fuel`
tests of the condition of each padding loop that has no other bound; `none` when that fuel
is used up. -/
def Options.Help (std : Std) (procname : String) (fuel : Nat) (opt : Options) : Option Exit :=
  let head : List String :=
    [Blue ++ Bold ++ procname ++ Reset ++ " \n\t" ++ opt.description ++ "\n\n",
     Cyan ++ Bold ++ "USAGE:" ++ Reset ++ "\n\t" ++ procname ++ " "] ++
    (if opt.flags.length ≠ 0 then ["[OPTIONS] "] else []) ++
    opt.required_values.map (fun info => "<" ++ std.upper info.name ++ "> ") ++
    opt.optional_values.map (fun info => "[" ++ std.upper info.name ++ "] ") ++
    ["\n\n"]
  let max_len := maxLen (maxLen 0 (names opt.required_values)) (names opt.optional_values)
  let args : Option (List String) :=
    if opt.optional_values.length ≠ 0 ∨ opt.required_values.length ≠ 0 then
      match requiredRows std max_len fuel opt.required_values with
      | none => none
      | some rows =>
        some ((Cyan ++ Bold ++ "ARGS:" ++ Reset ++ "\n") :: rows ++
          optionalRows std max_len opt.optional_values)
    else some []
  match args with
  | none => none
  | some args =>
    if opt.flags.length ≠ 0 then
      match flagRows (maxLen 0 (opt.flags.map Prod.fst)) opt.flags with
      | none => some (.panic "index out of range [0] with length 0")
      | some rows =>
        some (.status0 (head ++ args ++ (Cyan ++ Bold ++ "OPTIONS:" ++ Reset ++ "\n") :: rows))
    else some (.status0 (head ++ args))

/-! ## The tag grammar as it is stated -/

/-- The entry `keyword "=" value`: the text before and the text behind the first `=`. -/
def keyValue : List Char → Option (List Char × List Char)
  | [] => none
  | c :: cs =>
    if c = '=' then some ([], cs)
    else
      match keyValue cs with
      | none => none
      | some (key, val) => some (c :: key, val)

/-- The kind that a token names, matched without regard to case: the bare keywords, and
`flag=short`, `flag=long`, `flag=<other>` for any other text behind the `=`. -/
def statedTokenKind (std : Std) (tag_val : String) : Option Nat :=
  match keyValue (std.lower tag_val).data with
  | none =>
    if std.lower tag_val = "flag" then some flag_element
    else if std.lower tag_val = "sflag" ∨ std.lower tag_val = "short_flag" then
      some sflag_element
    else if std.lower tag_val = "lflag" ∨ std.lower tag_val = "long_flag" then
      some lflag_element
    else if std.lower tag_val = "optional" then some optional_element
    else if std.lower tag_val = "required" then some required_element
    else none
  | some (key, val) =>
    if String.mk key = "flag" then
      if String.mk val = "short" then some sflag_element
      else if String.mk val = "long" then some lflag_element
      else some flag_element
    else none

/-- The kind that a token names when a token with more than one `=` names none. -/
def tokenKind (std : Std) (tag_val : String) : Option Nat :=
  match keyValue (std.lower tag_val).data with
  | some (_, val) => if '=' ∈ val then none else statedTokenKind std tag_val
  | none => statedTokenKind std tag_val

/-- A token `name=<word>`, `desc=<text>` or `description=<text>` with a single `=`. -/
def suppliesText (std : Std) (tag_val : String) : Bool :=
  match keyValue (std.lower tag_val).data with
  | some (key, val) =>
    decide ('=' ∉ val ∧
      (String.mk key = "desc" ∨ String.mk key = "description" ∨ String.mk key = "name"))
  | none => false

/-- A token that names a kind or supplies a name or a description. -/
def recognized (std : Std) (tag_val : String) : Bool :=
  (tokenKind std tag_val).isSome || suppliesText std tag_val

/-- The kind named by the last kind-identifying token, `Required` when there is none. -/
def lastKind (kindOf : String → Option Nat) (tokens : List String) : Nat :=
  ((tokens.filterMap kindOf).getLast?).getD required_element

/-- A base-10 integer as text: an optional sign and at least one decimal digit. -/
def IsDecimal (s : String) : Prop :=
  ∃ sign ds : List Char, (sign = [] ∨ sign = ['-'] ∨ sign = ['+']) ∧ ds ≠ [] ∧
    (∀ c ∈ ds, '0' ≤ c ∧ c ≤ '9') ∧ s.data = sign ++ ds

/-- The bindings are in the order of the fields, at most one per field, for fields before
field `n`. -/
def IndexInv (n : Nat) (info : List parse_info) : Prop :=
  info.Pairwise (fun a b => a.index < b.index) ∧ ∀ inf ∈ info, inf.index < n

/-! ## The loop ends -/

theorem attach_rest {opt : Options} {s s1 : PState} {name : String} {more : List String}
    (h : attach opt s name more = .returned s1) :
    s1.rest.length ≤ more.length ∧ s1.parsing_flags = s.parsing_flags ∧
      s1.parsing_required = s.parsing_required := by
  unfold attach at h
  split at h
  · split at h
    · cases h
    · split at h
      · cases h
      · split at h <;> cases h <;> simp
  · cases h; simp

theorem body_measure {opt : Options} {s s1 : PState} {tok : String} {more : List String}
    (hr : s.rest = tok :: more) (h : body opt s tok more = .returned s1) :
    s1.measure < s.measure := by
  unfold body at h
  dsimp only at h
  simp only [PState.measure, hr, List.length_cons]
  split at h
  · rename_i hf
    split at h
    · cases h
    · split at h
      · split at h
        · cases h
        · cases h; simp [hr, hf]
      · split at h
        · split at h
          · cases h
          · split at h
            · cases h
            · have := attach_rest h
              rw [this.2.1, hf]; simp; omega
        · split at h
          · split at h
            · cases h
            · split at h
              · cases h
              · split at h
                · cases h
                · have := attach_rest h
                  rw [this.2.1, hf]; simp; omega
          · split at h <;> cases h
            simp [hf]
  · rename_i hf
    split at h
    · rename_i hq
      split at h
      · cases h; simp [hr, hf, hq]
      · split at h
        · cases h
        · cases h; simp [hf, hq]
    · rename_i hq
      split at h
      · split at h
        · cases h
        · cases h; simp [hf, hq]
      · cases h; simp [hf, hq]

theorem run_fuel (opt : Options) :
    ∀ (n : Nat) (s : PState), s.measure < n → ∀ m, s.measure < m → run opt n s = run opt m s := by
  intro n
  induction n with
  | zero => intro s h; omega
  | succ n ih =>
    intro s h m hm
    cases m with
    | zero => omega
    | succ m =>
      simp only [run]
      cases hr : s.rest with
      | nil => rfl
      | cons tok more =>
        simp only
        cases hb : body opt s tok more with
        | returned s1 =>
          have := body_measure hr hb
          exact ih s1 (by omega) m (by omega)
        | fatal a b => rfl
        | panic e => rfl
        | help => rfl

theorem run_measure (opt : Options) :
    ∀ (n : Nat) (s : PState), s.measure < n → ∃ o, run opt n s = some o := by
  intro n
  induction n with
  | zero => intro s h; omega
  | succ n ih =>
    intro s h
    simp only [run]
    cases hr : s.rest with
    | nil => exact ⟨_, rfl⟩
    | cons tok more =>
      simp only
      cases hb : body opt s tok more with
      | returned s1 =>
        have := body_measure hr hb
        exact ih s1 (by omega)
      | fatal a b => exact ⟨_, rfl⟩
      | panic e => exact ⟨_, rfl⟩
      | help => exact ⟨_, rfl⟩

/-- The fuel of `exec` suffices. -/
theorem exec_run (opt : Options) (s : PState) :
    run opt (s.measure + 1) s = some (exec opt s) := by
  obtain ⟨o, ho⟩ := run_measure opt (s.measure + 1) s (Nat.lt_succ_self _)
  simp [exec, ho]

/-- The loop at its end: no token left. -/
theorem exec_nil (opt : Options) {s : PState} (hr : s.rest = []) : exec opt s = finish s := by
  simp [exec, run, hr]

/-- The loop after a pass that leads to the next test of its condition. -/
theorem exec_step (opt : Options) {s s1 : PState} {tok : String} {more : List String}
    (hr : s.rest = tok :: more) (hb : body opt s tok more = .returned s1) :
    exec opt s = exec opt s1 := by
  have hm := body_measure hr hb
  have h1 : run opt (s.measure + 1) s = run opt s.measure s1 := by
    simp [run, hr, hb]
  have h2 := run_fuel opt s.measure s1 hm (s1.measure + 1) (by omega)
  simp only [exec, h1, h2]

/-- The loop after a pass that ends the process. -/
theorem exec_stop (opt : Options) {s : PState} {tok : String} {more : List String}
    (hr : s.rest = tok :: more) :
    (∀ m h, body opt s tok more = .fatal m h → exec opt s = .fatal m h) ∧
    (∀ e, body opt s tok more = .panic e → exec opt s = .panic e) ∧
    (body opt s tok more = .help → exec opt s = .help) := by
  refine ⟨?_, ?_, ?_⟩
  · intro m h hb; simp [exec, run, hr, hb]
  · intro e hb; simp [exec, run, hr, hb]
  · intro hb; simp [exec, run, hr, hb]

/-! ## Maps -/

theorem mapGet_mapSet {β : Type} (zero : β) (m : List (String × β)) (k k1 : String) (v : β) :
    mapGet zero (mapSet m k v) k1 = if k = k1 then v else mapGet zero m k1 := by
  induction m with
  | nil => simp [mapSet, mapGet]
  | cons e m ih =>
    obtain ⟨k0, v0⟩ := e
    by_cases h0 : k0 = k
    · subst h0
      by_cases h1 : k0 = k1 <;> simp [mapSet, mapGet, h1]
    · by_cases h1 : k0 = k1
      · subst h1
        have : ¬ k = k0 := fun h => h0 h.symm
        simp [mapSet, mapGet, h0, this]
      · simp [mapSet, mapGet, h0, h1, ih]

theorem get_mapSet (m : StrMap) (k k1 v : String) :
    StrMap.get (mapSet m k v) k1 = if k = k1 then v else m.get k1 :=
  mapGet_mapSet "" m k k1 v

theorem fill_get_other (ks : List String) :
    ∀ (m : StrMap) (ts : List String) (k : String), k ∉ ks →
      StrMap.get (fill m ks ts) k = m.get k := by
  induction ks with
  | nil => intro m ts k _; simp [fill]
  | cons k0 ks ih =>
    intro m ts k hk
    cases ts with
    | nil => simp [fill]
    | cons t ts =>
      simp only [fill]
      rw [ih _ _ _ (fun h => hk (List.mem_cons_of_mem _ h)), get_mapSet]
      have : ¬ k0 = k := fun h => hk (h ▸ List.mem_cons_self _ _)
      simp [this]

theorem fill_get (ks : List String) :
    ∀ (m : StrMap) (ts : List String) (i : Nat) (k t : String), ks.Nodup →
      ks[i]? = some k → ts[i]? = some t → StrMap.get (fill m ks ts) k = t := by
  induction ks with
  | nil => intro m ts i k t _ hk; simp at hk
  | cons k0 ks ih =>
    intro m ts i k t hnd hk ht
    cases ts with
    | nil => simp at ht
    | cons t0 ts =>
      simp only [fill]
      cases i with
      | zero =>
        simp at hk ht
        subst hk; subst ht
        rw [fill_get_other ks _ _ _ (List.nodup_cons.mp hnd).1, get_mapSet]
        simp
      | succ i =>
        simp at hk ht
        exact ih _ _ i k t (List.nodup_cons.mp hnd).2 hk ht

/-! ## Traces -/

theorem Reaches.exec_eq {opt : Options} {s s1 : PState} (h : Reaches opt s s1) :
    exec opt s = exec opt s1 := by
  induction h with
  | refl s => rfl
  | step hr hb _ ih => rw [exec_step opt hr hb, ih]

/-- The pass in the required state. -/
theorem body_required (opt : Options) {s : PState} (tok : String) (more : List String)
    (hf : s.parsing_flags = false) (hq : s.parsing_required = true) :
    body opt s tok more =
      if s.value_index ≥ opt.required_values.length then
        .returned { s with parsing_required := false, parsing_optional := true }
      else
        match opt.required_values[s.value_index]? with
        | none => .panic "index out of range"
        | some key =>
          .returned { s with rest := more, required := mapSet s.required key.name tok,
                             value_index := s.value_index + 1 } := by
  simp [body, hf, hq]

/-- The pass behind the required state. -/
theorem body_optional (opt : Options) {s : PState} (tok : String) (more : List String)
    (hf : s.parsing_flags = false) (hq : s.parsing_required = false) :
    body opt s tok more =
      if s.parsing_optional then
        match opt.optional_values[0]? with
        | none => .panic "index out of range [0] with length 0"
        | some key =>
          .returned { s with rest := more, optional := mapSet s.optional key.name tok,
                             value_index := 0 + 1 }
      else .returned { s with rest := more } := by
  simp [body, hf, hq]

/-- The loop behind the required state leaves the flags and the required values alone. -/
theorem exec_optional (opt : Options) :
    ∀ (ts : List String) (s : PState) (f r o : StrMap), s.rest = ts →
      s.parsing_flags = false → s.parsing_required = false →
      exec opt s = .returned (f, r, o) → f = s.flags ∧ r = s.required := by
  intro ts
  induction ts with
  | nil =>
    intro s f r o hr _ _ he
    rw [exec_nil opt hr] at he
    unfold finish at he
    split at he
    · cases he
    · cases he; exact ⟨rfl, rfl⟩
  | cons t ts ih =>
    intro s f r o hr hf hq he
    cases hb : body opt s t ts with
    | returned s1 =>
      rw [exec_step opt hr hb] at he
      rw [body_optional opt t ts hf hq] at hb
      split at hb
      · split at hb
        · cases hb
        · cases hb
          have h := ih _ f r o (by rfl) (by exact hf) (by exact hq) he
          exact h
      · cases hb
        have h := ih _ f r o (by rfl) (by exact hf) (by exact hq) he
        exact h
    | fatal m h => rw [(exec_stop opt hr).1 m h hb] at he; cases he
    | panic e => rw [(exec_stop opt hr).2.1 e hb] at he; cases he
    | help => rw [(exec_stop opt hr).2.2 hb] at he; cases he

/-- The loop in the required state assigns the tokens to the required names from
`value_index` on. -/
theorem exec_required (opt : Options) :
    ∀ (ts : List String) (s : PState) (f r o : StrMap), s.rest = ts →
      s.parsing_flags = false → s.parsing_required = true →
      exec opt s = .returned (f, r, o) →
      r = fill s.required ((names opt.required_values).drop s.value_index) ts := by
  intro ts
  induction ts with
  | nil =>
    intro s f r o hr _ _ he
    rw [exec_nil opt hr] at he
    unfold finish at he
    split at he
    · cases he
    · cases he
      cases h : (names opt.required_values).drop s.value_index <;> simp [fill]
  | cons t ts ih =>
    intro s f r o hr hf hq he
    cases hb : body opt s t ts with
    | returned s1 =>
      rw [exec_step opt hr hb] at he
      rw [body_required opt t ts hf hq] at hb
      split at hb
      · rename_i hge
        cases hb
        have h1 := (exec_optional opt (t :: ts) _ f r o (by exact hr) (by exact hf) (by rfl) he).2
        have : (names opt.required_values).drop s.value_index = [] := by
          apply List.drop_eq_nil_of_le
          simpa [names] using hge
        simp [h1, this, fill]
      · rename_i hlt
        split at hb
        · cases hb
        · rename_i key hk
          cases hb
          have h1 := ih _ f r o (by rfl) (by exact hf) (by exact hq) he
          have hd : (names opt.required_values).drop s.value_index =
              key.name :: (names opt.required_values).drop (s.value_index + 1) := by
            have hk2 : (names opt.required_values)[s.value_index]? = some key.name := by
              simp [names, hk]
            have hlen : s.value_index < (names opt.required_values).length := by
              simpa [names] using hlt
            rw [List.drop_eq_getElem_cons hlen]
            congr 1
            rw [List.getElem?_eq_getElem hlen] at hk2
            exact Option.some.inj hk2
          rw [hd]
          simpa [fill] using h1
    | fatal m h => rw [(exec_stop opt hr).1 m h hb] at he; cases he
    | panic e => rw [(exec_stop opt hr).2.1 e hb] at he; cases he
    | help => rw [(exec_stop opt hr).2.2 hb] at he; cases he

/-! ## The flag state -/

theorem byteAt_ne_empty {t : String} {b : Nat} (h : byteAt t 0 = some b) : t ≠ "" := by
  intro ht
  subst ht
  simp [byteAt, bytes, bytesOf] at h

/-- What a flag with its value or `"true"` changes. -/
theorem attach_returned {opt : Options} {s s1 : PState} {name : String} {more : List String}
    (h : attach opt s name more = .returned s1) :
    ∃ rest1 v, v ≠ "" ∧ s1 = { s with rest := rest1, flags := mapSet s.flags name v } := by
  unfold attach at h
  split at h
  · split at h
    · cases h
    · split at h
      · cases h
      · split at h <;> cases h
        · exact ⟨_, _, byteAt_ne_empty (by assumption), rfl⟩
        · exact ⟨_, "true", by decide, rfl⟩
  · cases h
    exact ⟨_, "true", by decide, rfl⟩

/-- What a group of short flags changes. -/
theorem group_returned (opt : Options) (tok : String) :
    ∀ (values : List Nat) (flags flags1 : StrMap),
      group opt tok values flags = .returned flags1 →
      ∀ k, StrMap.get flags k ≠ "" → StrMap.get flags1 k ≠ "" := by
  intro values
  induction values with
  | nil => intro flags flags1 h k hk; cases h; exact hk
  | cons v vs ih =>
    intro flags flags1 h k hk
    unfold group at h
    split at h
    · cases h
    · split at h
      · cases h
      · refine ih _ _ h k ?_
        rw [get_mapSet]
        split
        · decide
        · exact hk

/-- The pass in the flag state: a token that does not begin with `-` is handed over
unconsumed to the required state; any other pass stays in the flag state; the values
assigned so far are left alone, and no flag entry is emptied. -/
theorem body_flags {opt : Options} {s s1 : PState} {tok : String} {more : List String}
    (hf : s.parsing_flags = true) (h : body opt s tok more = .returned s1) :
    s1.required = s.required ∧ s1.optional = s.optional ∧ s1.value_index = s.value_index ∧
    (∀ k, s.flags.get k ≠ "" → s1.flags.get k ≠ "") ∧
    ((byteAt tok 0 = some dash ∧ s1.parsing_flags = true) ∨
     (byteAt tok 0 ≠ some dash ∧
      s1 = { s with parsing_flags := false, parsing_required := true })) := by
  unfold body at h
  dsimp only at h
  rw [if_pos hf] at h
  split at h
  · cases h
  · split at h
    · rename_i hd
      split at h
      · cases h
      · cases h
        exact ⟨rfl, rfl, rfl, fun _ hk => hk, Or.inr ⟨hd, rfl⟩⟩
    · rename_i hd
      have hd : byteAt tok 0 = some dash := by
        by_contra hc; exact hd hc
      split at h
      · split at h
        · cases h
        · split at h
          · cases h
          · obtain ⟨rest1, v, hv, rfl⟩ := attach_returned h
            refine ⟨rfl, rfl, rfl, ?_, Or.inl ⟨hd, hf⟩⟩
            intro k hk
            simp only [get_mapSet]
            split
            · exact hv
            · exact hk
      · split at h
        · split at h
          · cases h
          · split at h
            · cases h
            · split at h
              · cases h
              · obtain ⟨rest1, v, hv, rfl⟩ := attach_returned h
                refine ⟨rfl, rfl, rfl, ?_, Or.inl ⟨hd, hf⟩⟩
                intro k hk
                simp only [get_mapSet]
                split
                · exact hv
                · exact hk
        · split at h
          · rename_i flags hg
            cases h
            exact ⟨rfl, rfl, rfl, group_returned opt tok _ _ _ hg, Or.inl ⟨hd, hf⟩⟩
          · cases h
          · cases h
          · cases h

/-- Behind the flag state no pass changes the flags or goes back to the flag state. -/
theorem body_later {opt : Options} {s s1 : PState} {tok : String} {more : List String}
    (hf : s.parsing_flags = false) (h : body opt s tok more = .returned s1) :
    s1.parsing_flags = false ∧ s1.flags = s.flags := by
  cases hq : s.parsing_required with
  | true =>
    rw [body_required opt tok more hf hq] at h
    split at h
    · cases h; exact ⟨hf, rfl⟩
    · split at h
      · cases h
      · cases h; exact ⟨hf, rfl⟩
  | false =>
    rw [body_optional opt tok more hf hq] at h
    split at h
    · split at h
      · cases h
      · cases h; exact ⟨hf, rfl⟩
    · cases h; exact ⟨hf, rfl⟩

/-- While the scan is in the flag state no value has been assigned. -/
theorem Reaches.flag_state {opt : Options} {s s1 : PState} (h : Reaches opt s s1) :
    (s.parsing_flags = true → s.required = [] ∧ s.value_index = 0) →
    (s1.parsing_flags = true → s1.required = [] ∧ s1.value_index = 0) := by
  induction h with
  | refl s => exact id
  | @step s s1 s2 tok more hr hb _ ih =>
    intro h0
    apply ih
    intro h1
    cases hf : s.parsing_flags with
    | true =>
      obtain ⟨h2, _, h3, _⟩ := body_flags hf hb
      rw [h2, h3]
      exact h0 hf
    | false =>
      have := (body_later hf hb).1
      rw [this] at h1
      cases h1

theorem withHelp_values {opt opt1 : Options} (h : opt.withHelp = .returned opt1) :
    opt1.required_values = opt.required_values ∧
      opt1.optional_values = opt.optional_values := by
  unfold Options.withHelp at h
  split at h
  · cases h
  · split at h
    · unfold Options.Flag at h
      split at h
      · cases h
      · split at h <;> cases h
        exact ⟨rfl, rfl⟩
    · split at h
      · unfold Options.Long_flag at h
        split at h
        · cases h
        · split at h <;> cases h
          exact ⟨rfl, rfl⟩
      · cases h
        exact ⟨rfl, rfl⟩

/-! ## Bytes -/

theorem utf8_ne_nil (c : Char) : utf8 c ≠ [] := by
  unfold utf8
  dsimp only
  split
  · simp
  · split
    · simp
    · split <;> simp

theorem utf8_head_dash (c : Char) : (utf8 c).head? = some dash ↔ c = '-' := by
  constructor
  · intro h
    unfold utf8 at h
    dsimp only at h
    split at h
    · simp [dash] at h
      rw [← Char.ofNat_toNat c, h]
    · split at h
      · simp [dash] at h; omega
      · split at h <;> simp [dash] at h <;> try omega
  · intro h
    subst h
    decide

theorem byteAt_cons (c : Char) (cs : List Char) :
    byteAt (String.mk (c :: cs)) 0 = (utf8 c).head? := by
  simp only [byteAt, bytes, bytesOf]
  cases h : utf8 c with
  | nil => exact absurd h (utf8_ne_nil c)
  | cons b bs => simp

theorem byteAt_zero_some {t : String} (h : t ≠ "") : ∃ b, byteAt t 0 = some b := by
  obtain ⟨cs⟩ := t
  cases cs with
  | nil => exact absurd rfl h
  | cons c cs =>
    rw [byteAt_cons]
    cases hu : utf8 c with
    | nil => exact absurd hu (utf8_ne_nil c)
    | cons b bs => exact ⟨b, rfl⟩

theorem bytesOf_length (cs : List Char) : cs.length ≤ (bytesOf cs).length := by
  induction cs with
  | nil => simp [bytesOf]
  | cons c cs ih =>
    simp only [bytesOf, List.length_append, List.length_cons]
    have : 0 < (utf8 c).length := List.length_pos.mpr (utf8_ne_nil c)
    omega

/-! ## The short forms of the registry -/

/-- The loop of `Short_flag` finds an owner exactly when an entry with a short form has the
first byte of `name`. -/
theorem shortOwned_iff (m : List (String × flag_info)) (name : String) (hn : name ≠ "")
    (hkeys : ∀ kv ∈ m, kv.1 ≠ "") :
    (shortOwned m name = some true ↔
      ∃ kv ∈ m, byteAt kv.1 0 = byteAt name 0 ∧ kv.2.short = true) ∧
    (shortOwned m name = some true ∨ shortOwned m name = some false) := by
  obtain ⟨b, hb⟩ := byteAt_zero_some hn
  induction m with
  | nil => simp [shortOwned]
  | cons e m ih =>
    obtain ⟨key, value⟩ := e
    obtain ⟨k, hk⟩ := byteAt_zero_some (hkeys (key, value) (List.mem_cons_self _ _))
    have ih1 := ih (fun kv h => hkeys kv (List.mem_cons_of_mem _ h))
    simp only [hb] at ih1
    simp only [shortOwned, hk, hb]
    by_cases hc : (k = b && value.short) = true
    · simp only [hc, if_true, true_or, and_true, true_iff]
      simp at hc
      exact ⟨(key, value), List.mem_cons_self _ _, by simp [hk, hc.1], hc.2⟩
    · simp only [hc, Bool.false_eq_true, if_false]
      refine ⟨?_, ih1.2⟩
      rw [ih1.1]
      constructor
      · rintro ⟨kv, hmem, h1, h2⟩
        exact ⟨kv, List.mem_cons_of_mem _ hmem, h1, h2⟩
      · rintro ⟨kv, hmem, h1, h2⟩
        rcases List.mem_cons.mp hmem with rfl | hmem
        · exfalso
          apply hc
          simp only [hk, Option.some.injEq] at h1
          simp only [h1, decide_True, Bool.true_and]
          exact h2
        · exact ⟨kv, hmem, h1, h2⟩

/-! ## Groups of short flags -/

/-- A group whose characters all resolve records `"true"` for each resolved flag. -/
theorem group_all_true (opt : Options) (tok : String) :
    ∀ (values : List Nat) (flags : StrMap),
      (∀ v ∈ values, ∃ n i, opt.Get_sflag v = some (n, i) ∧ n ≠ "") →
      ∃ flags1, group opt tok values flags = .returned flags1 ∧
        (∀ k, flags.get k = "true" → flags1.get k = "true") ∧
        (∀ v ∈ values, ∀ n i, opt.Get_sflag v = some (n, i) → flags1.get n = "true") := by
  intro values
  induction values with
  | nil => intro flags _; exact ⟨flags, rfl, fun _ h => h, by simp⟩
  | cons v vs ih =>
    intro flags hres
    obtain ⟨n, i, hg, hn⟩ := hres v (List.mem_cons_self _ _)
    obtain ⟨flags1, h1, h2, h3⟩ :=
      ih (mapSet flags n "true") (fun w hw => hres w (List.mem_cons_of_mem _ hw))
    refine ⟨flags1, ?_, ?_, ?_⟩
    · simp only [group, hg, hn, if_false]
      exact h1
    · intro k hk
      apply h2
      rw [get_mapSet]
      split
      · rfl
      · exact hk
    · intro w hw n1 i1 hg1
      rcases List.mem_cons.mp hw with rfl | hw
      · rw [hg] at hg1
        cases hg1
        apply h2
        rw [get_mapSet]
        simp
      · exact h3 w hw n1 i1 hg1

/-! ## The flag `help` -/

/-- A registry without a short form on a byte gets one by declaring a flag with a short
form whose name starts with that byte. -/
theorem getSflag_mapSet (m : List (String × flag_info)) (name : String) (b : Nat)
    (v i : flag_info) (hb : byteAt name 0 = some b) (hv : v.short = true)
    (h : getSflag m b = some ("", i)) :
    getSflag (mapSet m name v) b = some (name, v) := by
  induction m with
  | nil => simp [mapSet, getSflag, hb, hv]
  | cons e m ih =>
    obtain ⟨key, value⟩ := e
    simp only [getSflag] at h
    cases hk : byteAt key 0 with
    | none => rw [hk] at h; cases h
    | some k =>
      rw [hk] at h
      simp only at h
      by_cases hc : (k = b && value.short) = true
      · rw [if_pos hc] at h
        cases h
        simp [byteAt, bytes, bytesOf] at hk
      · rw [if_neg hc] at h
        by_cases hkey : key = name
        · simp [mapSet, hkey, getSflag, hb, hv]
        · simp only [mapSet, hkey, if_false, getSflag, hk, hc]
          exact ih h

/-- Once `help` is set no pass clears it, so the loop does not return. -/
theorem exec_help_set (opt : Options) :
    ∀ (n : Nat) (s : PState), s.measure < n → s.flags.get "help" ≠ "" →
      ∀ r, exec opt s ≠ .returned r := by
  intro n
  induction n with
  | zero => intro s h; omega
  | succ n ih =>
    intro s hm hs r
    cases hr : s.rest with
    | nil =>
      rw [exec_nil opt hr]
      simp [finish, hs]
    | cons tok more =>
      cases hb : body opt s tok more with
      | returned s1 =>
        rw [exec_step opt hr hb]
        have hm1 := body_measure hr hb
        refine ih s1 (by omega) ?_ r
        cases hf : s.parsing_flags with
        | true => exact (body_flags hf hb).2.2.2.1 _ hs
        | false => rw [(body_later hf hb).2]; exact hs
      | fatal m h => rw [(exec_stop opt hr).1 m h hb]; simp
      | panic e => rw [(exec_stop opt hr).2.1 e hb]; simp
      | help => rw [(exec_stop opt hr).2.2 hb]; simp

/-- A pass that attaches a value or `"true"` to `help` leaves `help` set. -/
theorem attach_help {opt : Options} {s s1 : PState} {more : List String}
    (h : attach opt s "help" more = .returned s1) : s1.flags.get "help" ≠ "" := by
  obtain ⟨rest1, v, hv, rfl⟩ := attach_returned h
  simp [get_mapSet, hv]

/-! ## Registries built by the declaration operations -/

theorem mem_mapSet {β : Type} (m : List (String × β)) (k : String) (v : β)
    (kv : String × β) (h : kv ∈ mapSet m k v) : kv ∈ m ∨ kv = (k, v) := by
  induction m with
  | nil => simp [mapSet] at h; exact Or.inr h
  | cons e m ih =>
    obtain ⟨k0, v0⟩ := e
    simp only [mapSet] at h
    split at h
    · rcases List.mem_cons.mp h with h | h
      · exact Or.inr h
      · exact Or.inl (List.mem_cons_of_mem _ h)
    · rcases List.mem_cons.mp h with h | h
      · exact Or.inl (h ▸ List.mem_cons_self _ _)
      · rcases ih h with h | h
        · exact Or.inl (List.mem_cons_of_mem _ h)
        · exact Or.inr h

theorem nodup_names_append (vs : List value_info) (name desc : String)
    (hnd : (vs.map value_info.name).Nodup)
    (hany : ¬ vs.any (fun info => info.name = name) = true) :
    ((vs ++ [(⟨name, desc⟩ : value_info)]).map value_info.name).Nodup := by
  rw [List.map_append, List.nodup_append]
  refine ⟨hnd, by simp, ?_⟩
  intro a ha hb
  simp only [List.map_cons, List.map_nil, List.mem_singleton] at hb
  subst hb
  apply hany
  obtain ⟨info, hmem, hname⟩ := List.mem_map.mp ha
  simp only [List.any_eq_true, decide_eq_true_eq]
  exact ⟨info, hmem, hname⟩

theorem Opts_wellFormed (description : String) : (Opts description).WellFormed := by
  simp [Options.WellFormed, Opts]

theorem declare_wellFormed {opt opt1 : Options} (d : Decl) (hw : opt.WellFormed)
    (h : opt.declare d = .returned opt1) : opt1.WellFormed := by
  obtain ⟨hk, hr, ho⟩ := hw
  have hset : ∀ (name : String) (v : flag_info), name ≠ "" →
      ∀ kv ∈ mapSet opt.flags name v, kv.1 ≠ "" := by
    intro name v hn kv hkv
    rcases mem_mapSet _ _ _ _ hkv with h | h
    · exact hk kv h
    · rw [h]; exact hn
  cases d with
  | Required name desc =>
    simp only [Options.declare, Options.Required] at h
    split at h
    · cases h
    · split at h
      · cases h
      · rename_i hany
        cases h
        exact ⟨hk, nodup_names_append _ _ _ hr hany, ho⟩
  | Optional name desc =>
    simp only [Options.declare, Options.Optional] at h
    split at h
    · cases h
    · split at h
      · cases h
      · rename_i hany
        cases h
        exact ⟨hk, hr, nodup_names_append _ _ _ ho hany⟩
  | Flag name desc value =>
    simp only [Options.declare, Options.Flag] at h
    split at h
    · cases h
    · rename_i hn
      split at h
      · cases h
      · cases h
        exact ⟨hset name _ hn, hr, ho⟩
  | Short_flag name desc value =>
    simp only [Options.declare, Options.Short_flag] at h
    split at h
    · cases h
    · rename_i hn
      split at h
      · cases h
      · cases h
      · cases h
        exact ⟨hset name _ hn, hr, ho⟩
  | Long_flag name desc value =>
    simp only [Options.declare, Options.Long_flag] at h
    split at h
    · cases h
    · rename_i hn
      split at h
      · cases h
      · cases h
        exact ⟨hset name _ hn, hr, ho⟩

/-- Every registry built from `Opts` by declaration calls that return is well formed. -/
theorem declareAll_wellFormed (ds : List Decl) :
    ∀ (opt opt1 : Options), opt.WellFormed → opt.declareAll ds = .returned opt1 →
      opt1.WellFormed := by
  induction ds with
  | nil => intro opt opt1 hw h; cases h; exact hw
  | cons d ds ih =>
    intro opt opt1 hw h
    simp only [Options.declareAll] at h
    cases hd : opt.declare d with
    | returned opt2 =>
      rw [hd] at h
      exact ih opt2 opt1 (declare_wellFormed d hw hd) h
    | fatal m e => rw [hd] at h; cases h
    | panic e => rw [hd] at h; cases h
    | help => rw [hd] at h; cases h

/-! ## `Get_sflag` and the order of the map -/

theorem getSflag_of_mem (m : List (String × flag_info)) (b : Nat) (kv : String × flag_info)
    (hkeys : ∀ e ∈ m, e.1 ≠ "") (hmem : kv ∈ m) (hb : byteAt kv.1 0 = some b)
    (hs : kv.2.short = true)
    (huniq : ∀ e ∈ m, byteAt e.1 0 = some b → e.2.short = true → e = kv) :
    getSflag m b = some kv := by
  induction m with
  | nil => cases hmem
  | cons e m ih =>
    obtain ⟨k, hk⟩ := byteAt_zero_some (hkeys e (List.mem_cons_self _ _))
    obtain ⟨key, value⟩ := e
    simp only [getSflag, hk]
    by_cases hc : (k = b && value.short) = true
    · rw [if_pos hc]
      simp only [Bool.and_eq_true, decide_eq_true_eq] at hc
      rw [huniq (key, value) (List.mem_cons_self _ _) (by rw [hk, hc.1]) hc.2]
    · rw [if_neg hc]
      rcases List.mem_cons.mp hmem with h | h
      · exfalso
        apply hc
        subst h
        rw [hk] at hb
        simp only [Option.some.injEq] at hb
        simp only [hb, decide_True, Bool.true_and]
        exact hs
      · exact ih (fun e he => hkeys e (List.mem_cons_of_mem _ he)) h
          (fun e he => huniq e (List.mem_cons_of_mem _ he))

theorem getSflag_of_not_mem (m : List (String × flag_info)) (b : Nat)
    (hkeys : ∀ e ∈ m, e.1 ≠ "")
    (hno : ∀ e ∈ m, ¬ (byteAt e.1 0 = some b ∧ e.2.short = true)) :
    getSflag m b = some ("", flag_info.zero) := by
  induction m with
  | nil => rfl
  | cons e m ih =>
    obtain ⟨k, hk⟩ := byteAt_zero_some (hkeys e (List.mem_cons_self _ _))
    obtain ⟨key, value⟩ := e
    simp only [getSflag, hk]
    have hc : ¬ (k = b && value.short) = true := by
      intro hc
      simp only [Bool.and_eq_true, decide_eq_true_eq] at hc
      exact hno (key, value) (List.mem_cons_self _ _) ⟨by rw [hk, hc.1], hc.2⟩
    rw [if_neg hc]
    exact ih (fun e he => hkeys e (List.mem_cons_of_mem _ he))
      (fun e he => hno e (List.mem_cons_of_mem _ he))

/-- When at most one flag with a short form has the first byte `b`, `Get_sflag` gives the
same answer in whatever order the map is visited. -/
theorem getSflag_perm {m1 m2 : List (String × flag_info)} (b : Nat) (hp : m1.Perm m2)
    (hkeys : ∀ e ∈ m1, e.1 ≠ "")
    (huniq : ∀ e1 ∈ m1, ∀ e2 ∈ m1, byteAt e1.1 0 = some b → e1.2.short = true →
      byteAt e2.1 0 = some b → e2.2.short = true → e1 = e2) :
    getSflag m1 b = getSflag m2 b := by
  have hkeys2 : ∀ e ∈ m2, e.1 ≠ "" := fun e he => hkeys e (hp.mem_iff.mpr he)
  by_cases hex : ∃ kv ∈ m1, byteAt kv.1 0 = some b ∧ kv.2.short = true
  · obtain ⟨kv, hmem, hb, hs⟩ := hex
    rw [getSflag_of_mem m1 b kv hkeys hmem hb hs
        (fun e he h1 h2 => huniq e he kv hmem h1 h2 hb hs),
      getSflag_of_mem m2 b kv hkeys2 (hp.mem_iff.mp hmem) hb hs
        (fun e he h1 h2 => huniq e (hp.mem_iff.mpr he) kv hmem h1 h2 hb hs)]
  · have hno : ∀ e ∈ m1, ¬ (byteAt e.1 0 = some b ∧ e.2.short = true) :=
      fun e he hc => hex ⟨e, he, hc⟩
    rw [getSflag_of_not_mem m1 b hkeys hno,
      getSflag_of_not_mem m2 b hkeys2 (fun e he => hno e (hp.mem_iff.mpr he))]

/-! ## The rule of value attachment -/

/-- When the token behind a flag is not empty, it is consumed as the value of the flag
exactly if the flag takes a value, the token does not begin with `-`, and behind it at
least as many tokens are left as there are required declarations; otherwise the flag
records `"true"` and the token stays. -/
theorem attach_nonempty (opt : Options) (s : PState) (name nxt : String)
    (more2 : List String) (hne : nxt ≠ "") :
    attach opt s name (nxt :: more2) =
      if (opt.flag name).takes_value = true ∧ byteAt nxt 0 ≠ some dash ∧
          opt.required_values.length ≤ more2.length then
        .returned { s with rest := more2, flags := mapSet s.flags name nxt }
      else .returned { s with rest := nxt :: more2, flags := mapSet s.flags name "true" } := by
  obtain ⟨b, hb⟩ := byteAt_zero_some hne
  unfold attach
  by_cases h1 : opt.required_values.length < (nxt :: more2).length
  · have h1b : opt.required_values.length ≤ more2.length := by
      simp only [List.length_cons] at h1; omega
    simp only [h1, if_true, hb]
    by_cases h2 : (b ≠ dash && (opt.flag name).takes_value) = true
    · rw [if_pos h2]
      simp at h2
      rw [if_pos ⟨h2.2, by simpa using h2.1, h1b⟩]
    · rw [if_neg h2]
      simp at h2
      rw [if_neg]
      rintro ⟨h3, h4, _⟩
      simp only [ne_eq, Option.some.injEq] at h4
      rw [h2 h4] at h3
      cases h3
  · have h1b : ¬ opt.required_values.length ≤ more2.length := by
      simp only [List.length_cons] at h1; omega
    rw [if_neg h1, if_neg]
    rintro ⟨_, _, h⟩
    exact h1b h

/-- A flag that is the last token records `"true"`. -/
theorem attach_last (opt : Options) (s : PState) (name : String) :
    attach opt s name [] = .returned { s with rest := [], flags := mapSet s.flags name "true" } := by
  simp [attach]

/-! ## How the loop ends -/

theorem group_ne_help (opt : Options) (tok : String) :
    ∀ (values : List Nat) (flags : StrMap), group opt tok values flags ≠ .help := by
  intro values
  induction values with
  | nil => intro flags h; cases h
  | cons v vs ih =>
    intro flags h
    unfold group at h
    split at h
    · cases h
    · split at h
      · cases h
      · exact ih _ h

theorem attach_ne_help (opt : Options) (s : PState) (name : String) (more : List String) :
    attach opt s name more ≠ .help := by
  intro h
  unfold attach at h
  split at h
  · split at h
    · cases h
    · split at h
      · cases h
      · split at h <;> cases h
  · cases h

/-- No pass of the loop calls `Help`. -/
theorem body_ne_help (opt : Options) (s : PState) (tok : String) (more : List String) :
    body opt s tok more ≠ .help := by
  intro h
  cases hf : s.parsing_flags with
  | true =>
    unfold body at h
    dsimp only at h
    rw [if_pos hf] at h
    split at h
    · cases h
    · split at h
      · split at h <;> cases h
      · split at h
        · split at h
          · cases h
          · split at h
            · cases h
            · exact attach_ne_help _ _ _ _ h
        · split at h
          · split at h
            · cases h
            · split at h
              · cases h
              · split at h
                · cases h
                · exact attach_ne_help _ _ _ _ h
          · split at h
            · cases h
            · cases h
            · cases h
            · rename_i hg
              exact group_ne_help _ _ _ _ hg
  | false =>
    cases hq : s.parsing_required with
    | true =>
      rw [body_required opt tok more hf hq] at h
      split at h
      · cases h
      · split at h <;> cases h
    | false =>
      rw [body_optional opt tok more hf hq] at h
      split at h
      · split at h <;> cases h
      · cases h

/-- The value behind the loop is the call of `Help` or the three mappings. -/
theorem finish_cases (s : PState) : finish s = .help ∨ ∃ r, finish s = .returned r := by
  unfold finish
  split
  · exact Or.inl rfl
  · exact Or.inr ⟨_, rfl⟩

/-- A state without a token left is the last one. -/
theorem Reaches.of_nil {opt : Options} {s s1 : PState} (h : Reaches opt s s1)
    (hr : s.rest = []) : s1 = s := by
  cases h with
  | refl => rfl
  | step hr1 _ _ => rw [hr] at hr1; cases hr1

/-- The loop either comes to its end, where `finish` decides, or one of its passes ends the
process with a fatal error or a panic. -/
theorem exec_cases (opt : Options) :
    ∀ (n : Nat) (s : PState), s.measure < n →
      (∃ sEnd, Reaches opt s sEnd ∧ sEnd.rest = [] ∧ exec opt s = finish sEnd) ∨
      (∃ m h, exec opt s = .fatal m h) ∨ (∃ e, exec opt s = .panic e) := by
  intro n
  induction n with
  | zero => intro s h; omega
  | succ n ih =>
    intro s hm
    cases hr : s.rest with
    | nil => exact Or.inl ⟨s, Reaches.refl s, hr, exec_nil opt hr⟩
    | cons tok more =>
      cases hb : body opt s tok more with
      | returned s1 =>
        have hm1 := body_measure hr hb
        rw [exec_step opt hr hb]
        rcases ih s1 (by omega) with ⟨sEnd, h1, h2, h3⟩ | h | h
        · exact Or.inl ⟨sEnd, Reaches.step hr hb h1, h2, h3⟩
        · exact Or.inr (Or.inl h)
        · exact Or.inr (Or.inr h)
      | fatal m h => exact Or.inr (Or.inl ⟨m, h, (exec_stop opt hr).1 m h hb⟩)
      | panic e => exact Or.inr (Or.inr ⟨e, (exec_stop opt hr).2.1 e hb⟩)
      | help => exact absurd hb (body_ne_help opt s tok more)

/-! ## Statements of the specification -/

/-- C1: the registry declared with required `file`, optional `mode` and the value-less flag
`verbose` parses `["prog", "-v", "input.txt", "fast"]` into the flags mapping with
`verbose` at `"true"` and nothing else (so that `help` reads as `""`), the required mapping
with `file` at `"input.txt"` and the optional mapping with `mode` at `"fast"`. -/
theorem C1_end_to_end_scenario :
    (Opts "").declareAll [.Required "file" "", .Optional "mode" "", .Flag "verbose" "" [false]]
      = .returned scenarioRegistry ∧
    scenarioRegistry.Parse ["prog", "-v", "input.txt", "fast"]
      = .returned ([("verbose", "true")], [("file", "input.txt")], [("mode", "fast")]) ∧
    StrMap.get [("verbose", "true")] "verbose" = "true" ∧
    StrMap.get [("verbose", "true")] "help" = "" ∧
    StrMap.get [("file", "input.txt")] "file" = "input.txt" ∧
    StrMap.get [("mode", "fast")] "mode" = "fast" := by
  decide

/-- C2: with the value-taking flag `name` and one required value, `["--name", "X", "req1"]`
gives `name = "X"` and `["--name", "req1"]` gives `name = "true"`, each with the required
value `"req1"`; but on `["--name", "", "req1"]`, where the following token is empty (so it
does not begin with `-`) and enough tokens remain, the scan neither consumes the token nor
records `"true"`: reading `args[index+1][0]` panics, for the value-taking `name` and for
the value-less `verbose` of the end-to-end scenario alike. -/
theorem C2_empty_following_token_panics :
    (Opts "").declareAll [.Flag "name" "" [], .Required "req" ""]
      = .returned nameRegistry ∧
    nameRegistry.Parse ["prog", "--name", "X", "req1"]
      = .returned ([("name", "X")], [("req", "req1")], []) ∧
    nameRegistry.Parse ["prog", "--name", "req1"]
      = .returned ([("name", "true")], [("req", "req1")], []) ∧
    nameRegistry.Parse ["prog", "--name", "", "req1"]
      = .panic "index out of range [0] with length 0" ∧
    nameRegistry.Parse ["prog", "-n", "", "req1"]
      = .panic "index out of range [0] with length 0" ∧
    scenarioRegistry.Parse ["prog", "--verbose", "", "input.txt"]
      = .panic "index out of range [0] with length 0" :=
  ⟨by decide, by decide, by decide, by decide, by decide, by decide⟩

/-- C3: `Parse` returns although a declared required value has no entry: with required
`file` and no argument at all the required mapping is empty, and with required `src` and
`dst` and the single token `a.txt` only `src` is filled. -/
theorem C3_parse_returns_without_required_value :
    (Opts "").Required "file" "" = .returned ⟨[], [], [⟨"file", ""⟩], ""⟩ ∧
    Options.Parse ⟨[], [], [⟨"file", ""⟩], ""⟩ ["prog"] = .returned ([], [], []) ∧
    (Opts "").declareAll [.Required "src" "", .Required "dst" ""]
      = .returned ⟨[], [], [⟨"src", ""⟩, ⟨"dst", ""⟩], ""⟩ ∧
    Options.Parse ⟨[], [], [⟨"src", ""⟩, ⟨"dst", ""⟩], ""⟩ ["prog", "a.txt"]
      = .returned ([], [("src", "a.txt")], []) ∧
    StrMap.get [("src", "a.txt")] "dst" = "" := by
  decide

/-- C4: on a registry whose required names are pairwise distinct (which `Required`
enforces), when `Parse` returns and the scan met, in the flag state, a token that does not
begin with `-`, the required mapping sends the `i`-th declared required name to the `i`-th
token counted from that one, for every `i` where both exist, whatever the tokens look like. -/
theorem C4_required_in_declaration_order (opt : Options) (args : List String) (s : PState)
    (f r o : StrMap) (i : Nat) (key : value_info) (p : String)
    (hnd : (names opt.required_values).Nodup)
    (hret : opt.Parse args = .returned (f, r, o))
    (hv : opt.Visits args s) (hf : s.parsing_flags = true)
    (hd : ∃ t, s.rest.head? = some t ∧ byteAt t 0 ≠ some dash)
    (hk : opt.required_values[i]? = some key) (hp : s.rest[i]? = some p) :
    r.get key.name = p := by
  obtain ⟨opt1, h1, hreach⟩ := hv
  obtain ⟨hreq, _⟩ := withHelp_values h1
  cases args with
  | nil => simp [Options.Parse] at hret
  | cons prog args =>
    simp only [Options.Parse, h1] at hret
    have hreach1 : Reaches opt1 (PState.init args) s := hreach
    rw [hreach1.exec_eq] at hret
    obtain ⟨hr0, hv0⟩ := hreach.flag_state (fun _ => ⟨rfl, rfl⟩) hf
    obtain ⟨t, ht, hdash⟩ := hd
    cases hrest : s.rest with
    | nil => rw [hrest] at ht; simp at ht
    | cons t1 more =>
      rw [hrest] at ht
      simp at ht
      subst ht
      cases hb : body opt1 s t1 more with
      | returned s1 =>
        rw [exec_step opt1 hrest hb] at hret
        obtain ⟨_, _, _, _, h4⟩ := body_flags hf hb
        rcases h4 with ⟨hd1, _⟩ | ⟨_, hs1⟩
        · exact absurd hd1 hdash
        · subst hs1
          have h5 := exec_required opt1 (t1 :: more) _ f r o (by exact hrest) (by rfl) (by rfl) hret
          simp only [hr0, hv0, List.drop_zero, hreq] at h5
          rw [h5]
          apply fill_get _ _ _ i _ _ hnd
          · simp [names, hk]
          · rw [← hrest]; exact hp
      | fatal m h => rw [(exec_stop opt1 hrest).1 m h hb] at hret; cases hret
      | panic e => rw [(exec_stop opt1 hrest).2.1 e hb] at hret; cases hret
      | help => rw [(exec_stop opt1 hrest).2.2 hb] at hret; cases hret

/-- C4 at the end-to-end scenario: behind `-v` the scan meets `input.txt` in the flag
state, `Parse` returns, and `input.txt` goes to `file`. -/
theorem C4_required_in_declaration_order_witness :
    (names scenarioRegistry.required_values).Nodup ∧
    scenarioRegistry.Parse ["prog", "-v", "input.txt", "fast"]
      = .returned ([("verbose", "true")], [("file", "input.txt")], [("mode", "fast")]) ∧
    scenarioRegistry.Visits ["prog", "-v", "input.txt", "fast"] scenarioBehindFlags ∧
    StrMap.get [("file", "input.txt")] "file" = "input.txt" :=
  have hv : scenarioRegistry.Visits ["prog", "-v", "input.txt", "fast"] scenarioBehindFlags :=
    ⟨{ scenarioRegistry with flags := scenarioRegistry.flags ++
          [("help", ⟨true, true, false, "Prints this help message."⟩)] },
      by decide, @Reaches.step _ _ _ _ "-v" ["input.txt", "fast"] rfl (by decide)
        (Reaches.refl _)⟩
  ⟨by decide, by decide, hv,
   C4_required_in_declaration_order scenarioRegistry ["prog", "-v", "input.txt", "fast"]
    scenarioBehindFlags [("verbose", "true")] [("file", "input.txt")] [("mode", "fast")]
    0 ⟨"file", ""⟩ "input.txt" (by decide) (by decide) hv rfl
    ⟨"input.txt", rfl, by decide⟩ rfl rfl⟩

/-- C5: with optional `first` and `second` and the tokens `xx`, `yy`, both tokens are
assigned to `first` (the last one stays) and `second` gets nothing. -/
theorem C5_optional_tokens_all_go_to_the_first :
    (Opts "").declareAll [.Optional "first" "", .Optional "second" ""]
      = .returned ⟨[], [⟨"first", ""⟩, ⟨"second", ""⟩], [], ""⟩ ∧
    Options.Parse ⟨[], [⟨"first", ""⟩, ⟨"second", ""⟩], [], ""⟩ ["prog", "xx", "yy"]
      = .returned ([], [], [("first", "yy")]) ∧
    StrMap.get [("first", "yy")] "first" = "yy" ∧
    StrMap.get [("first", "yy")] "second" = "" := by
  decide

/-- C6: in the flag state, a token `-c1c2..ck` with `k ≥ 2` characters behind a single
dash, each of which resolves to a declared short flag, is passed with `"true"` recorded for
every resolved flag and with the following tokens all still to be processed, whatever the
takes-value settings of the flags are. -/
theorem C6_short_flag_group (opt : Options) (s : PState) (cs : List Char)
    (more : List String) (hf : s.parsing_flags = true) (hk : 2 ≤ cs.length)
    (hd : cs.head? ≠ some '-')
    (hres : ∀ c ∈ cs, ∃ n i, opt.Get_sflag c.toNat = some (n, i) ∧ n ≠ "") :
    ∃ flags1, body opt s (String.mk ('-' :: cs)) more
        = .returned { s with rest := more, flags := flags1 } ∧
      ∀ c ∈ cs, ∀ n i, opt.Get_sflag c.toNat = some (n, i) → flags1.get n = "true" := by
  obtain ⟨flags1, h1, _, h3⟩ := group_all_true opt (String.mk ('-' :: cs))
    (cs.map Char.toNat) s.flags (by
      intro v hv
      obtain ⟨c, hc, rfl⟩ := List.mem_map.mp hv
      exact hres c hc)
  refine ⟨flags1, ?_, fun c hc n i hg => h3 c.toNat (List.mem_map.mpr ⟨c, hc, rfl⟩) n i hg⟩
  have hlen := bytesOf_length cs
  have hdash : utf8 '-' = [dash] := by decide
  have h0 : byteAt (String.mk ('-' :: cs)) 0 = some dash := by
    rw [byteAt_cons, hdash]; rfl
  have hl : ¬ len (String.mk ('-' :: cs)) < 2 := by
    simp only [len, bytes, bytesOf, hdash, List.length_append, List.length_cons,
      List.length_nil]
    omega
  have h1b : byteAt (String.mk ('-' :: cs)) 1 ≠ some dash := by
    cases cs with
    | nil => simp at hk
    | cons c cs1 =>
      have hb : byteAt (String.mk ('-' :: c :: cs1)) 1 = (utf8 c).head? := by
        simp only [byteAt, bytes, bytesOf, hdash]
        cases hu : utf8 c with
        | nil => exact absurd hu (utf8_ne_nil c)
        | cons b bs => simp
      rw [hb]
      intro hc
      apply hd
      rw [(utf8_head_dash c).mp hc]
      rfl
  have hs : sliceFrom (String.mk ('-' :: cs)) 1 = String.mk cs := by
    simp [sliceFrom]
  have hl1 : ¬ len (String.mk cs) = 1 := by
    simp only [len, bytes]
    omega
  have hrun : runes (String.mk cs) = cs.map Char.toNat := rfl
  unfold body
  dsimp only
  rw [if_pos hf, if_neg hl, if_neg (by simpa using h0), if_neg h1b, hs, if_neg hl1, hrun, h1]

/-- C6 on `["-ab", "x"]` with `alpha` and `beta` declared value-taking flags: both are
recorded as `"true"` and `x` is still to be processed. -/
theorem C6_short_flag_group_witness :
    (∃ flags1, body alphaBetaRegistry (PState.init ["-ab", "x"]) "-ab" ["x"]
        = .returned { PState.init ["-ab", "x"] with rest := ["x"], flags := flags1 } ∧
      ∀ c ∈ ['a', 'b'], ∀ n i, alphaBetaRegistry.Get_sflag c.toNat = some (n, i) →
        flags1.get n = "true") ∧
    alphaBetaRegistry.Parse ["prog", "-ab"]
      = .returned ([("alpha", "true"), ("beta", "true")], [], []) :=
  ⟨C6_short_flag_group alphaBetaRegistry (PState.init ["-ab", "x"]) ['a', 'b'] ["x"] rfl
    (by decide) (by decide)
    (by
      intro c hc
      simp only [List.mem_cons, List.mem_singleton, List.not_mem_nil, or_false] at hc
      rcases hc with rfl | rfl
      · exact ⟨"alpha", ⟨true, true, true, ""⟩, by decide, by decide⟩
      · exact ⟨"beta", ⟨true, true, true, ""⟩, by decide, by decide⟩),
   by decide⟩

/-- C7: on a registry in which no flag has a short form on the byte `h`, when the scan of
`Parse` meets `-h` or `--help` in the flag state, `Parse` returns no parsed result, and it
ends in the call of `Help` exactly when the scan completes, that is when the loop comes to
a state with no token left; so unless the run ends in a fatal error or a panic, it ends in
the call of `Help`. -/
theorem C7_help_request (opt : Options) (args : List String) (s : PState)
    (hh : ∃ i, opt.Get_sflag 104 = some ("", i))
    (hv : opt.Visits args s) (hf : s.parsing_flags = true)
    (ht : s.rest.head? = some "-h" ∨ s.rest.head? = some "--help") :
    (∀ r, opt.Parse args ≠ .returned r) ∧
    ((∃ sEnd, opt.Visits args sEnd ∧ sEnd.rest = []) ↔ opt.Parse args = .help) ∧
    ((∀ m h, opt.Parse args ≠ .fatal m h) → (∀ e, opt.Parse args ≠ .panic e) →
      opt.Parse args = .help) := by
  have key : ∀ r, opt.Parse args ≠ .returned r := by
    intro r hret
    obtain ⟨opt1, h1, hreach⟩ := hv
    obtain ⟨i, hi⟩ := hh
    cases args with
    | nil => simp [Options.Parse] at hret
    | cons prog args =>
      simp only [Options.Parse, h1] at hret
      have hreach1 : Reaches opt1 (PState.init args) s := hreach
      rw [hreach1.exec_eq] at hret
      -- the registry of the scan is `opt` with `help` declared by `Flag`
      have hopt1 : opt1 =
          { opt with
            flags := mapSet opt.flags "help" ⟨true, true, false, "Prints this help message."⟩ } := by
        simp only [Options.withHelp, hi, if_true, Options.Flag] at h1
        split at h1
        · cases h1
        · split at h1
          · cases h1
          · cases h1; rfl
      have hget : opt1.Get_sflag 104 =
          some ("help", ⟨true, true, false, "Prints this help message."⟩) := by
        rw [hopt1]
        exact getSflag_mapSet opt.flags "help" 104 _ i (by decide) rfl hi
      have hflag : opt1.flag "help" = ⟨true, true, false, "Prints this help message."⟩ := by
        rw [hopt1]
        simp [Options.flag, mapGet_mapSet]
      cases hrest : s.rest with
      | nil => rw [hrest] at ht; simp at ht
      | cons tok more =>
        rw [hrest] at ht
        simp only [List.head?_cons, Option.some.injEq] at ht
        cases hb : body opt1 s tok more with
        | returned s1 =>
          rw [exec_step opt1 hrest hb] at hret
          have hset : s1.flags.get "help" ≠ "" := by
            rcases ht with rfl | rfl
            · have e1 : len "-h" = 2 := by decide
              have e2 : byteAt "-h" 0 = some dash := by decide
              have e3 : byteAt "-h" 1 = some 104 := by decide
              have e4 : sliceFrom "-h" 1 = "h" := by decide
              have e5 : len "h" = 1 := by decide
              have e6 : byteAt "h" 0 = some 104 := by decide
              unfold body at hb
              dsimp only at hb
              simp only [hf, if_true, e1, e2, e3, e4, e5, e6, hget, dash] at hb
              simp at hb
              exact attach_help hb
            · have e1 : len "--help" = 6 := by decide
              have e2 : byteAt "--help" 0 = some dash := by decide
              have e3 : byteAt "--help" 1 = some dash := by decide
              have e4 : sliceFrom "--help" 2 = "help" := by decide
              unfold body at hb
              dsimp only at hb
              simp only [hf, if_true, e1, e2, e3, e4, hflag] at hb
              simp [flag_info.zero] at hb
              exact attach_help hb
          exact exec_help_set opt1 _ s1 (Nat.lt_succ_self _) hset r hret
        | fatal m h => rw [(exec_stop opt1 hrest).1 m h hb] at hret; cases hret
        | panic e => rw [(exec_stop opt1 hrest).2.1 e hb] at hret; cases hret
        | help => rw [(exec_stop opt1 hrest).2.2 hb] at hret; cases hret
  refine ⟨key, ⟨?_, ?_⟩, fun hfatal hpanic => ?_⟩
  · -- a completed scan ends in `finish`, which calls `Help` because `help` is set
    rintro ⟨sEnd, ⟨opt2, h2, hreach2⟩, hend⟩
    cases args with
    | nil =>
      obtain ⟨opt1, _, hreach⟩ := hv
      have hs : s = PState.init ([] : List String).tail := hreach.of_nil rfl
      rw [hs] at ht
      simp [PState.init] at ht
    | cons prog args =>
      have hp : opt.Parse (prog :: args) = finish sEnd := by
        have hreach3 : Reaches opt2 (PState.init args) sEnd := hreach2
        simp only [Options.Parse, h2]
        rw [hreach3.exec_eq, exec_nil opt2 hend]
      rcases finish_cases sEnd with h | ⟨r, h⟩
      · rw [hp, h]
      · exact absurd (hp.trans h) (key r)
  · -- no pass of the loop calls `Help`, so a run that ends in `Help` completed the scan
    intro hhelp
    obtain ⟨opt1, h1, _⟩ := hv
    cases args with
    | nil => simp [Options.Parse] at hhelp
    | cons prog args =>
      simp only [Options.Parse, h1] at hhelp
      rcases exec_cases opt1 _ (PState.init args) (Nat.lt_succ_self _) with
        ⟨sEnd, h2, h3, _⟩ | ⟨m, h, h4⟩ | ⟨e, h4⟩
      · exact ⟨sEnd, ⟨opt1, h1, h2⟩, h3⟩
      · rw [h4] at hhelp; cases hhelp
      · rw [h4] at hhelp; cases hhelp
  · cases hp : opt.Parse args with
    | returned r => exact absurd hp (key r)
    | fatal m h => exact absurd hp (hfatal m h)
    | panic e => exact absurd hp (hpanic e)
    | help => rfl

/-- C7 on the empty registry and the input `["-h"]` behind the program name: the scan
completes and `Parse` ends in the call of `Help`; so it does for `--help`, and for `-h`
followed by a positional value. -/
theorem C7_help_request_witness :
    ((∀ r, (Opts "").Parse ["prog", "-h"] ≠ .returned r) ∧
     ((∃ sEnd, (Opts "").Visits ["prog", "-h"] sEnd ∧ sEnd.rest = []) ↔
      (Opts "").Parse ["prog", "-h"] = .help) ∧
     ((∀ m h, (Opts "").Parse ["prog", "-h"] ≠ .fatal m h) →
      (∀ e, (Opts "").Parse ["prog", "-h"] ≠ .panic e) →
      (Opts "").Parse ["prog", "-h"] = .help)) ∧
    (Opts "").Visits ["prog", "-h"]
      { PState.init [] with flags := [("help", "true")] } ∧
    (Opts "").Parse ["prog", "-h"] = .help ∧
    (Opts "").Parse ["prog", "--help"] = .help ∧
    (Opts "").Parse ["prog", "-h", "in.txt"] = .panic "index out of range [0] with length 0" ∧
    Options.Parse ⟨[], [], [⟨"file", ""⟩], ""⟩ ["prog", "-h", "in.txt"] = .help :=
  ⟨C7_help_request (Opts "") ["prog", "-h"] (PState.init ["-h"])
    ⟨flag_info.zero, by decide⟩
    ⟨⟨[("help", ⟨true, true, false, "Prints this help message."⟩)], [], [], ""⟩,
      by decide, Reaches.refl _⟩
    rfl (Or.inl rfl),
   ⟨⟨[("help", ⟨true, true, false, "Prints this help message."⟩)], [], [], ""⟩,
      by decide, @Reaches.step _ _ _ _ "-h" [] rfl (by decide) (Reaches.refl _)⟩,
   by decide, by decide, by decide, by decide⟩

/-- C8: on the registry that declares the flag `host`, which owns the short form `h`,
`Parse` does not make `help` a long-only flag: the call of `Long_flag("help")` panics
whatever the arguments are, here `--help`, `-h` and none. -/
theorem C8_help_synthesis_panics_when_h_is_taken :
    (Opts "").Flag "host" "" [] = .returned hostRegistry ∧
    hostRegistry.withHelp
      = .panic "invalid flag added 2 flags can not share the name help" ∧
    hostRegistry.Parse ["prog", "--help"]
      = .panic "invalid flag added 2 flags can not share the name help" ∧
    hostRegistry.Parse ["prog", "-h"]
      = .panic "invalid flag added 2 flags can not share the name help" ∧
    hostRegistry.Parse ["prog"]
      = .panic "invalid flag added 2 flags can not share the name help" :=
  ⟨by decide, by decide, by decide, by decide, by decide⟩

/-- C9: `Flag("alpha")` followed by `Flag("apple")` returns a registry in which two distinct
flags have a short form and the same first byte, while `Short_flag("apple")` in the same
place is refused. -/
theorem C9_flag_accepts_a_second_short_owner :
    (Opts "").declareAll [.Flag "alpha" "" [], .Flag "apple" "" []]
      = .returned ⟨[("alpha", ⟨true, true, true, ""⟩), ("apple", ⟨true, true, true, ""⟩)],
          [], [], ""⟩ ∧
    byteAt "alpha" 0 = byteAt "apple" 0 ∧
    (Opts "").declareAll [.Flag "alpha" "" [], .Short_flag "apple" "" []]
      = .panic ("invalid the short flag a has already been defined please define another " ++
          "flag for this value") := by
  decide

/-- What `Short_flag` does on a registry whose flag names are non-empty: it fails exactly
when `name` is empty or some flag, the one called `name` included, already has a short form
and the first byte of `name`; when it returns, the entry of an already declared `name` keeps
its fields and has the short form, a new name gets a short-only entry, and nothing else
changes. -/
theorem Short_flag_outcome (opt : Options) (name desc : String)
    (value : List Bool) (hkeys : ∀ kv ∈ opt.flags, kv.1 ≠ "") :
    ((∃ e, opt.Short_flag name desc value = .panic e) ↔
      (name = "" ∨ ∃ kv ∈ opt.flags, byteAt kv.1 0 = byteAt name 0 ∧ kv.2.short = true)) ∧
    ((∃ e, opt.Short_flag name desc value = .panic e) ∨
      ∃ opt1, opt.Short_flag name desc value = .returned opt1 ∧
        opt1.flag name =
          (if opt.flag name ≠ flag_info.zero then { opt.flag name with short := true }
           else ⟨false, true, lastValue value, desc⟩) ∧
        (∀ k, k ≠ name → opt1.flag k = opt.flag k) ∧
        opt1.required_values = opt.required_values ∧
        opt1.optional_values = opt.optional_values) := by
  by_cases hn : name = ""
  · simp [Options.Short_flag, hn]
  · obtain ⟨hiff, hor⟩ := shortOwned_iff opt.flags name hn hkeys
    rcases hor with h | h
    · have hex := hiff.mp h
      simp only [Options.Short_flag, hn, if_false, h]
      exact ⟨⟨fun _ => Or.inr hex, fun _ => ⟨_, rfl⟩⟩, Or.inl ⟨_, rfl⟩⟩
    · have hnex : ¬ ∃ kv ∈ opt.flags, byteAt kv.1 0 = byteAt name 0 ∧ kv.2.short = true := by
        intro hc
        rw [← hiff, h] at hc
        cases hc
      simp only [Options.Short_flag, hn, if_false, h]
      refine ⟨⟨fun hc => ?_, fun hc => ?_⟩, Or.inr ⟨_, rfl, ?_, ?_, rfl, rfl⟩⟩
      · obtain ⟨e, he⟩ := hc
        cases he
      · rcases hc with hc | hc
        · exact hc.elim
        · exact absurd hc hnex
      · simp [Options.flag, mapGet_mapSet]
      · intro k hk
        have : ¬ name = k := fun h => hk h.symm
        simp [Options.flag, mapGet_mapSet, this]

/-- The registry that declares `alpha` with both forms: `Short_flag` on `alpha` fails. -/
theorem Short_flag_outcome_example :
    (∀ kv ∈ [("alpha", (⟨true, true, true, ""⟩ : flag_info))], kv.1 ≠ "") ∧
    ((∃ e, Options.Short_flag ⟨[("alpha", ⟨true, true, true, ""⟩)], [], [], ""⟩ "alpha" "" []
        = .panic e) ↔
      ("alpha" = "" ∨ ∃ kv ∈ [("alpha", (⟨true, true, true, ""⟩ : flag_info))],
        byteAt kv.1 0 = byteAt "alpha" 0 ∧ kv.2.short = true)) :=
  ⟨by decide,
   (Short_flag_outcome ⟨[("alpha", ⟨true, true, true, ""⟩)], [], [], ""⟩
      "alpha" "" [] (by decide)).1⟩

/-- C10: `Short_flag` on a name that is already declared does not upgrade the entry: after
`Flag("alpha")`, where no other flag is declared, `Short_flag("alpha")` panics, and so it
does after `Short_flag("alpha")` and after `Flag("alpha")` with `Long_flag("alpha")`; only a
name that is not declared is accepted. -/
theorem C10_same_flag_is_refused :
    (Opts "").Flag "alpha" "" [] = .returned ⟨[("alpha", ⟨true, true, true, ""⟩)], [], [], ""⟩ ∧
    (∀ kv ∈ [("alpha", (⟨true, true, true, ""⟩ : flag_info))], kv.1 = "alpha") ∧
    Options.Short_flag ⟨[("alpha", ⟨true, true, true, ""⟩)], [], [], ""⟩ "alpha" "" [] =
      .panic ("invalid the short flag a has already been defined please define another flag " ++
        "for this value") ∧
    (Opts "").declareAll [.Short_flag "alpha" "" [], .Short_flag "alpha" "" []] =
      .panic ("invalid the short flag a has already been defined please define another flag " ++
        "for this value") ∧
    (Opts "").declareAll [.Flag "alpha" "" [], .Long_flag "alpha" "" [],
        .Short_flag "alpha" "" []] =
      .panic ("invalid the short flag a has already been defined please define another flag " ++
        "for this value") ∧
    (Opts "").declareAll [.Flag "alpha" "" [], .Short_flag "beta" "" []] =
      .returned ⟨[("alpha", ⟨true, true, true, ""⟩), ("beta", ⟨false, true, true, ""⟩)],
        [], [], ""⟩ :=
  ⟨by decide, by decide, by decide, by decide, by decide, by decide⟩

/-! ## Registries built by the declaration operations, continued -/

theorem mapGet_mem {β : Type} (zero : β) (m : List (String × β)) (k : String)
    (h : mapGet zero m k ≠ zero) : (k, mapGet zero m k) ∈ m := by
  induction m with
  | nil => exact absurd rfl h
  | cons e m ih =>
    obtain ⟨k0, v0⟩ := e
    simp only [mapGet] at h ⊢
    split
    · rename_i hk
      subst hk
      exact List.mem_cons_self _ _
    · rename_i hk
      rw [if_neg hk] at h
      exact List.mem_cons_of_mem _ (ih h)

/-- A declaration call leaves every flag with a short form. -/
theorem declare_short {opt opt1 : Options} (d : Decl)
    (hs : ∀ kv ∈ opt.flags, kv.2.short = true) (h : opt.declare d = .returned opt1) :
    ∀ kv ∈ opt1.flags, kv.2.short = true := by
  have hset : ∀ (name : String) (v : flag_info), v.short = true →
      ∀ kv ∈ mapSet opt.flags name v, kv.2.short = true := by
    intro name v hv kv hkv
    rcases mem_mapSet _ _ _ _ hkv with h | h
    · exact hs kv h
    · rw [h]; exact hv
  cases d with
  | Required name desc =>
    simp only [Options.declare, Options.Required] at h
    split at h
    · cases h
    · split at h <;> cases h
      exact hs
  | Optional name desc =>
    simp only [Options.declare, Options.Optional] at h
    split at h
    · cases h
    · split at h <;> cases h
      exact hs
  | Flag name desc value =>
    simp only [Options.declare, Options.Flag] at h
    split at h
    · cases h
    · split at h <;> cases h
      exact hset name _ rfl
  | Short_flag name desc value =>
    simp only [Options.declare, Options.Short_flag] at h
    split at h
    · cases h
    · split at h
      · cases h
      · cases h
      · cases h
        apply hset name
        split <;> rfl
  | Long_flag name desc value =>
    simp only [Options.declare, Options.Long_flag] at h
    split at h
    · cases h
    · split at h
      · cases h
      · rename_i hz
        cases h
        apply hset name
        exact hs (name, opt.flag name) (mapGet_mem flag_info.zero opt.flags name hz)

/-- In every registry built from `Opts` by declaration calls that return, every flag has a
short form: no call yields a flag with the long form alone. -/
theorem declareAll_short (ds : List Decl) :
    ∀ (opt opt1 : Options), (∀ kv ∈ opt.flags, kv.2.short = true) →
      opt.declareAll ds = .returned opt1 → ∀ kv ∈ opt1.flags, kv.2.short = true := by
  induction ds with
  | nil => intro opt opt1 hs h; cases h; exact hs
  | cons d ds ih =>
    intro opt opt1 hs h
    simp only [Options.declareAll] at h
    cases hd : opt.declare d with
    | returned opt2 =>
      rw [hd] at h
      exact ih opt2 opt1 (declare_short d hs hd) h
    | fatal m e => rw [hd] at h; cases h
    | panic e => rw [hd] at h; cases h
    | help => rw [hd] at h; cases h

/-- In every registry built from `Opts`, `Short_flag` on a name that is already declared
panics: the entry has a short form and the first byte of its own name, so the branch that
upgrades a declared entry is never reached. -/
theorem Short_flag_on_declared_name (description : String) (ds : List Decl) (opt : Options)
    (name desc : String) (value : List Bool)
    (hb : (Opts description).declareAll ds = .returned opt)
    (hd : opt.flag name ≠ flag_info.zero) :
    ∃ e, opt.Short_flag name desc value = .panic e := by
  have hw := declareAll_wellFormed ds _ _ (Opts_wellFormed description) hb
  have hs := declareAll_short ds _ _ (by simp [Opts]) hb
  have hmem := mapGet_mem flag_info.zero opt.flags name hd
  have hn : name ≠ "" := hw.1 _ hmem
  have hown : shortOwned opt.flags name = some true :=
    (shortOwned_iff opt.flags name hn hw.1).1.mpr ⟨_, hmem, rfl, hs _ hmem⟩
  simp only [Options.Short_flag, hn, if_false, hown]
  exact ⟨_, rfl⟩

theorem any_name_iff (vs : List value_info) (name : String) :
    vs.any (fun info => info.name = name) = true ↔ name ∈ names vs := by
  simp only [List.any_eq_true, decide_eq_true_eq, names, List.mem_map]

/-- A declaration call leaves the names of the values non-empty. -/
theorem declare_value_names {opt opt1 : Options} (d : Decl)
    (hv : (∀ n ∈ names opt.required_values, n ≠ "") ∧
      (∀ n ∈ names opt.optional_values, n ≠ ""))
    (h : opt.declare d = .returned opt1) :
    (∀ n ∈ names opt1.required_values, n ≠ "") ∧
      (∀ n ∈ names opt1.optional_values, n ≠ "") := by
  have happ : ∀ (vs : List value_info) (name desc : String), name ≠ "" →
      (∀ n ∈ names vs, n ≠ "") → ∀ n ∈ names (vs ++ [⟨name, desc⟩]), n ≠ "" := by
    intro vs name desc hn hvs n hmem
    simp only [names, List.map_append, List.map_cons, List.map_nil, List.mem_append,
      List.mem_singleton] at hmem
    rcases hmem with hmem | hmem
    · exact hvs n hmem
    · rw [hmem]; exact hn
  cases d with
  | Required name desc =>
    simp only [Options.declare, Options.Required] at h
    split at h
    · cases h
    · rename_i hn
      split at h <;> cases h
      exact ⟨happ _ _ _ hn hv.1, hv.2⟩
  | Optional name desc =>
    simp only [Options.declare, Options.Optional] at h
    split at h
    · cases h
    · rename_i hn
      split at h <;> cases h
      exact ⟨hv.1, happ _ _ _ hn hv.2⟩
  | Flag name desc value =>
    simp only [Options.declare, Options.Flag] at h
    split at h
    · cases h
    · split at h <;> cases h
      exact hv
  | Short_flag name desc value =>
    simp only [Options.declare, Options.Short_flag] at h
    split at h
    · cases h
    · split at h <;> cases h
      exact hv
  | Long_flag name desc value =>
    simp only [Options.declare, Options.Long_flag] at h
    split at h
    · cases h
    · split at h <;> cases h
      exact hv

theorem declareAll_value_names (ds : List Decl) :
    ∀ (opt opt1 : Options),
      ((∀ n ∈ names opt.required_values, n ≠ "") ∧
        (∀ n ∈ names opt.optional_values, n ≠ "")) →
      opt.declareAll ds = .returned opt1 →
      (∀ n ∈ names opt1.required_values, n ≠ "") ∧
        (∀ n ∈ names opt1.optional_values, n ≠ "") := by
  induction ds with
  | nil => intro opt opt1 hv h; cases h; exact hv
  | cons d ds ih =>
    intro opt opt1 hv h
    simp only [Options.declareAll] at h
    cases hd : opt.declare d with
    | returned opt2 =>
      rw [hd] at h
      exact ih opt2 opt1 (declare_value_names d hv hd) h
    | fatal m e => rw [hd] at h; cases h
    | panic e => rw [hd] at h; cases h
    | help => rw [hd] at h; cases h

/-! ## The help text -/

/-- The padding loop of the rows of the required values does not end when there is
something to pad. -/
theorem spacerLoop_none (diff : Nat) (hd : 0 < diff) :
    ∀ (fuel : Nat) (spacer : String), spacerLoop diff fuel 0 spacer = none := by
  intro fuel
  induction fuel with
  | zero => intro spacer; rfl
  | succ fuel ih =>
    intro spacer
    simp only [spacerLoop, hd, if_true]
    exact ih _

/-- With nothing to pad the loop ends at once. -/
theorem spacerLoop_zero (fuel : Nat) (spacer : String) :
    spacerLoop 0 (fuel + 1) 0 spacer = some spacer := by
  simp [spacerLoop]

theorem requiredRows_none (std : Std) (max_len fuel : Nat) (vs : List value_info)
    (h : ∃ info ∈ vs, len info.name < max_len) : requiredRows std max_len fuel vs = none := by
  induction vs with
  | nil => obtain ⟨_, hmem, _⟩ := h; cases hmem
  | cons v vs ih =>
    obtain ⟨info, hmem, hlt⟩ := h
    simp only [requiredRows]
    by_cases hv : len v.name < max_len
    · rw [spacerLoop_none _ (by omega)]
    · rcases List.mem_cons.mp hmem with rfl | hmem
      · exact absurd hlt hv
      · rw [ih ⟨info, hmem, hlt⟩]
        split <;> rfl

/-- `Help` does not come to its end when a required value has a name shorter than the
longest name of a value. -/
theorem Help_none (std : Std) (procname : String) (fuel : Nat) (opt : Options)
    (h : ∃ info ∈ opt.required_values, len info.name <
      maxLen (maxLen 0 (names opt.required_values)) (names opt.optional_values)) :
    opt.Help std procname fuel = none := by
  obtain ⟨info, hmem, hlt⟩ := h
  have hne : opt.required_values.length ≠ 0 := by
    intro hc
    rw [List.length_eq_zero] at hc
    rw [hc] at hmem
    cases hmem
  simp only [Options.Help, hne, ne_eq, not_false_eq_true, or_true, if_true,
    requiredRows_none std _ fuel _ ⟨info, hmem, hlt⟩]


/-! ## The tag grammar -/

theorem keyValue_none {cs : List Char} : keyValue cs = none ↔ '=' ∉ cs := by
  induction cs with
  | nil => simp [keyValue]
  | cons c cs ih =>
    simp only [keyValue]
    by_cases hc : c = '='
    · simp [hc]
    · rw [if_neg hc]
      have hc2 : ¬ '=' = c := fun h => hc h.symm
      cases hk : keyValue cs with
      | none => simp [ih.mp hk, hc2]
      | some kv =>
        obtain ⟨key, val⟩ := kv
        simp only [false_iff, List.mem_cons, not_or, not_and, not_not, reduceCtorEq]
        intro _
        by_contra hn
        rw [ih.mpr hn] at hk
        cases hk

theorem splitChars_ne_nil (sep : Char) (cs : List Char) : splitChars sep cs ≠ [] := by
  cases cs with
  | nil => simp [splitChars]
  | cons c cs =>
    simp only [splitChars]
    split
    · simp
    · split <;> simp

theorem splitChars_not_mem {cs : List Char} (h : '=' ∉ cs) : splitChars '=' cs = [cs] := by
  induction cs with
  | nil => rfl
  | cons c cs ih =>
    have hc : ¬ c = '=' := fun hc => h (hc ▸ List.mem_cons_self _ _)
    have := ih (fun hm => h (List.mem_cons_of_mem _ hm))
    simp [splitChars, hc, this]

theorem splitChars_keyValue {cs key val : List Char} (h : keyValue cs = some (key, val)) :
    splitChars '=' cs = key :: splitChars '=' val := by
  induction cs generalizing key with
  | nil => simp [keyValue] at h
  | cons c cs ih =>
    simp only [keyValue] at h
    by_cases hc : c = '='
    · rw [if_pos hc] at h
      cases h
      simp [splitChars, hc]
    · rw [if_neg hc] at h
      cases hk : keyValue cs with
      | none => rw [hk] at h; cases h
      | some kv =>
        obtain ⟨key1, val1⟩ := kv
        rw [hk] at h
        cases h
        simp [splitChars, hc, ih hk]

/-- `strings.Split(t, "=")` has two parts exactly when a single `=` stands in `t`. -/
theorem Split_keyValue {t : String} {key val : List Char}
    (h : keyValue t.data = some (key, val)) :
    ('=' ∉ val → Split t '=' = [String.mk key, String.mk val]) ∧
    ('=' ∈ val → ∃ a b c rest, Split t '=' = a :: b :: c :: rest) := by
  constructor
  · intro hv
    simp [Split, splitChars_keyValue h, splitChars_not_mem hv]
  · intro hv
    cases hk : keyValue val with
    | none => exact absurd hv (keyValue_none.mp hk)
    | some kv =>
      obtain ⟨key1, val1⟩ := kv
      cases hs : splitChars '=' val1 with
      | nil => exact absurd hs (splitChars_ne_nil _ _)
      | cons p ps =>
        exact ⟨_, _, _, _, by
          simp only [Split, splitChars_keyValue h, splitChars_keyValue hk, hs, List.map_cons]
          rfl⟩

theorem Contains_keyValue (t : String) :
    Contains t '=' = (keyValue t.data).isSome := by
  cases hk : keyValue t.data with
  | none =>
    have := keyValue_none.mp hk
    simp [Contains, this]
  | some kv =>
    have : '=' ∈ t.data := by
      by_contra hn
      rw [keyValue_none.mpr hn] at hk
      cases hk
    simp [Contains, this]

theorem setLast_concat (front : List parse_info) (b : parse_info)
    (f : parse_info → parse_info) : setLast (front ++ [b]) f = some (front ++ [f b]) := by
  simp [setLast]

theorem record_fresh (info : List parse_info) (f : parse_info → parse_info)
    (fresh : parse_info) : record info false f fresh = .returned (info ++ [fresh], true) := by
  simp [record]

theorem record_last (front : List parse_info) (b : parse_info)
    (f : parse_info → parse_info) (fresh : parse_info) :
    record (front ++ [b]) true f fresh = .returned (front ++ [f b], true) := by
  simp [record, setLast_concat]

/-- What one token does: a token that is not recognized changes nothing; a recognized token
runs the create-or-update block, and the kind it writes is the kind it names. -/
theorem tagToken_eq (std : Std) (i : Nat) (fieldName tag_val : String)
    (info : List parse_info) (added : Bool) :
    ∃ (f : parse_info → parse_info) (fresh : parse_info),
      (∀ p, (f p).index = p.index ∧ (f p).typ = (tokenKind std tag_val).getD p.typ) ∧
      fresh.index = i ∧ fresh.typ = (tokenKind std tag_val).getD required_element ∧
      tagToken std i fieldName tag_val info added =
        if recognized std tag_val = true then record info added f fresh
        else .returned (info, added) := by
  have hcont := Contains_keyValue (std.lower tag_val)
  cases hk : keyValue (std.lower tag_val).data with
  | none =>
    rw [hk] at hcont
    simp only [tagToken, hcont, recognized, tokenKind, statedTokenKind, suppliesText, hk]
    by_cases h1 : std.lower tag_val = "flag"
    · exact ⟨fun p => { p with typ := flag_element }, ⟨i, fieldName, "", flag_element⟩,
        by simp [h1], rfl, by simp [h1], by simp [h1]⟩
    by_cases h2 : std.lower tag_val = "sflag" ∨ std.lower tag_val = "short_flag"
    · exact ⟨fun p => { p with typ := sflag_element }, ⟨i, fieldName, "", sflag_element⟩,
        by simp [h1, h2], rfl, by simp [h1, h2], by simp [h1, h2]⟩
    by_cases h3 : std.lower tag_val = "lflag" ∨ std.lower tag_val = "long_flag"
    · exact ⟨fun p => { p with typ := lflag_element }, ⟨i, fieldName, "", lflag_element⟩,
        by simp [h1, h2, h3], rfl, by simp [h1, h2, h3], by simp [h1, h2, h3]⟩
    by_cases h4 : std.lower tag_val = "optional"
    · exact ⟨fun p => { p with typ := optional_element },
        ⟨i, fieldName, "", optional_element⟩,
        by simp [h1, h2, h3, h4], rfl, by simp [h1, h2, h3, h4], by simp [h1, h2, h3, h4]⟩
    by_cases h5 : std.lower tag_val = "required"
    · exact ⟨fun p => { p with typ := required_element },
        ⟨i, fieldName, "", required_element⟩,
        by simp [h1, h2, h3, h4, h5], rfl, by simp [h1, h2, h3, h4, h5],
        by simp [h1, h2, h3, h4, h5]⟩
    exact ⟨id, ⟨i, "", "", required_element⟩, fun p => by simp [h1, h2, h3, h4, h5], rfl,
      by simp [h1, h2, h3, h4, h5], by simp [h1, h2, h3, h4, h5]⟩
  | some kv =>
    obtain ⟨key, val⟩ := kv
    rw [hk] at hcont
    obtain ⟨hsplit1, hsplit2⟩ := Split_keyValue hk
    by_cases hv : '=' ∈ val
    · obtain ⟨a, b, c, rest, hs⟩ := hsplit2 hv
      refine ⟨id, ⟨i, "", "", required_element⟩, ?_, rfl, ?_, ?_⟩
      · intro p; simp [tokenKind, hk, hv]
      · simp [tokenKind, hk, hv]
      · simp [tagToken, hcont, hs, recognized, tokenKind, suppliesText, hk, hv]
    · have hs := hsplit1 hv
      simp only [tagToken, hcont, hs, recognized, tokenKind, statedTokenKind, suppliesText, hk,
        hv, if_false, Option.isSome_some, if_true]
      by_cases h1 : String.mk key = "desc" ∨ String.mk key = "description"
      · have hne : ¬ String.mk key = "flag" := by
          rcases h1 with h | h <;> rw [h] <;> decide
        have h1c : String.mk key = "desc" ∨ String.mk key = "description" ∨
            String.mk key = "name" := by
          rcases h1 with h | h
          · exact Or.inl h
          · exact Or.inr (Or.inl h)
        exact ⟨fun p => { p with description := String.mk val },
          ⟨i, fieldName, String.mk val, required_element⟩,
          by simp [hne], rfl, by simp [hne], by simp [h1, hne, h1c]⟩
      by_cases h2 : String.mk key = "name"
      · have hne : ¬ String.mk key = "flag" := by rw [h2]; decide
        exact ⟨fun p => { p with name := String.mk val },
          ⟨i, String.mk val, "", required_element⟩,
          by simp [hne], rfl, by simp [hne], by simp [h1, h2, hne]⟩
      have h1a : ¬ String.mk key = "desc" := fun h => h1 (Or.inl h)
      have h1b : ¬ String.mk key = "description" := fun h => h1 (Or.inr h)
      by_cases h3 : String.mk key = "flag"
      · by_cases h4 : String.mk val = "short"
        · exact ⟨fun p => { p with typ := sflag_element }, ⟨i, fieldName, "", sflag_element⟩,
            by simp [h3, h4], rfl, by simp [h3, h4], by simp [h1, h2, h3, h4]⟩
        by_cases h5 : String.mk val = "long"
        · exact ⟨fun p => { p with typ := lflag_element }, ⟨i, fieldName, "", lflag_element⟩,
            by simp [h3, h4, h5], rfl, by simp [h3, h4, h5], by simp [h1, h2, h3, h4, h5]⟩
        exact ⟨fun p => { p with typ := flag_element }, ⟨i, fieldName, "", flag_element⟩,
          by simp [h3, h4, h5], rfl, by simp [h3, h4, h5], by simp [h1, h2, h3, h4, h5]⟩
      exact ⟨id, ⟨i, "", "", required_element⟩, fun p => by simp [h3], rfl, by simp [h3],
        by simp [h1a, h1b, h2, h3]⟩

theorem getLast_filterMap_cons {α β : Type} (g : α → Option β) (t : α) (ts : List α) (x : β) :
    (((t :: ts).filterMap g).getLast?).getD x = ((ts.filterMap g).getLast?).getD ((g t).getD x) := by
  cases hg : g t with
  | none => simp [List.filterMap_cons, hg]
  | some k =>
    simp only [List.filterMap_cons, hg, List.getLast?_cons, Option.getD_some]

/-- The tokens behind the one that created the binding update it in place: its kind ends as
the kind of the last token that names one. -/
theorem tagLoop_added (std : Std) (i : Nat) (fieldName : String) :
    ∀ (tokens : List String) (front : List parse_info) (b : parse_info),
      ∃ b1, tagLoop std i fieldName tokens (front ++ [b]) true = .returned (front ++ [b1], true) ∧
        b1.index = b.index ∧
        b1.typ = ((tokens.filterMap (tokenKind std)).getLast?).getD b.typ := by
  intro tokens
  induction tokens with
  | nil => intro front b; exact ⟨b, rfl, rfl, rfl⟩
  | cons t ts ih =>
    intro front b
    obtain ⟨f, fresh, hf, _, _, heq⟩ := tagToken_eq std i fieldName t (front ++ [b]) true
    rw [getLast_filterMap_cons]
    by_cases hrec : recognized std t = true
    · rw [if_pos hrec, record_last] at heq
      obtain ⟨b1, h1, h2, h3⟩ := ih front (f b)
      refine ⟨b1, ?_, ?_, ?_⟩
      · simp only [tagLoop, heq]; exact h1
      · rw [h2, (hf b).1]
      · rw [h3, (hf b).2]
    · rw [if_neg hrec] at heq
      have hnone : tokenKind std t = none := by
        cases hk : tokenKind std t with
        | none => rfl
        | some k => exfalso; apply hrec; simp [recognized, hk]
      obtain ⟨b1, h1, h2, h3⟩ := ih front b
      refine ⟨b1, ?_, h2, ?_⟩
      · simp only [tagLoop, heq]; exact h1
      · rw [h3, hnone]; rfl

/-- The loop over the tokens of one tag: without a recognized token it leaves the bindings
as they are; with one it appends exactly one binding, for the field `i`, whose kind is the
kind of the last token that names one, `Required` when none does. -/
theorem tagLoop_fresh (std : Std) (i : Nat) (fieldName : String) :
    ∀ (tokens : List String) (info : List parse_info),
      (tokens.any (recognized std) = false ∧
        tagLoop std i fieldName tokens info false = .returned (info, false)) ∨
      (tokens.any (recognized std) = true ∧
        ∃ b, tagLoop std i fieldName tokens info false = .returned (info ++ [b], true) ∧
          b.index = i ∧ b.typ = lastKind (tokenKind std) tokens) := by
  intro tokens
  induction tokens with
  | nil => intro info; exact Or.inl ⟨rfl, rfl⟩
  | cons t ts ih =>
    intro info
    obtain ⟨f, fresh, _, hi, ht, heq⟩ := tagToken_eq std i fieldName t info false
    by_cases hrec : recognized std t = true
    · rw [if_pos hrec, record_fresh] at heq
      obtain ⟨b1, h1, h2, h3⟩ := tagLoop_added std i fieldName ts info fresh
      refine Or.inr ⟨by simp [hrec], b1, ?_, ?_, ?_⟩
      · simp only [tagLoop, heq]; exact h1
      · rw [h2, hi]
      · rw [h3, ht, lastKind, getLast_filterMap_cons]
    · rw [if_neg hrec] at heq
      have hnone : tokenKind std t = none := by
        cases hk : tokenKind std t with
        | none => rfl
        | some k => exfalso; apply hrec; simp [recognized, hk]
      have hfalse : recognized std t = false := by simpa using hrec
      rcases ih info with ⟨h1, h2⟩ | ⟨h1, b, h2, h3, h4⟩
      · refine Or.inl ⟨by simp [hfalse, h1], ?_⟩
        simp only [tagLoop, heq]; exact h2
      · refine Or.inr ⟨by simp [h1], b, ?_, h3, ?_⟩
        · simp only [tagLoop, heq]; exact h2
        · rw [h4, lastKind, lastKind, getLast_filterMap_cons, hnone]; rfl

/-! ## The registration pass -/

theorem IndexInv.mono {n m : Nat} {info : List parse_info} (h : IndexInv n info)
    (hnm : n ≤ m) : IndexInv m info :=
  ⟨h.1, fun inf hinf => Nat.lt_of_lt_of_le (h.2 inf hinf) hnm⟩

theorem IndexInv.concat {n : Nat} {info : List parse_info} {b : parse_info}
    (h : IndexInv n info) (hb : b.index = n) : IndexInv (n + 1) (info ++ [b]) := by
  constructor
  · rw [List.pairwise_append]
    refine ⟨h.1, List.pairwise_singleton _ _, ?_⟩
    intro a ha c hc
    simp only [List.mem_singleton] at hc
    rw [hc, hb]
    exact h.2 a ha
  · intro inf hinf
    rcases List.mem_append.mp hinf with hinf | hinf
    · exact Nat.lt_succ_of_lt (h.2 inf hinf)
    · simp only [List.mem_singleton] at hinf
      rw [hinf, hb]
      exact Nat.lt_succ_self _

/-- The bindings that the registration pass builds are in the order of the fields, at most
one per field, and each for a field of the struct. -/
theorem registerFields_inv (std : Std) :
    ∀ (fields : List Field) (i : Nat) (opts opts1 : Options) (info info1 : List parse_info),
      registerFields std i fields opts info = .returned (opts1, info1) →
      IndexInv i info → IndexInv (i + fields.length) info1 := by
  intro fields
  induction fields with
  | nil =>
    intro i opts opts1 info info1 h hinv
    simp only [registerFields] at h
    cases h
    exact hinv
  | cons field fields ih =>
    intro i opts opts1 info info1 h hinv
    have hlen : i + (field :: fields).length = (i + 1) + fields.length := by
      simp only [List.length_cons]; omega
    rw [hlen]
    simp only [registerFields] at h
    split at h
    · exact ih _ _ _ _ _ h (hinv.mono (Nat.le_succ _))
    · split at h
      · exact ih _ _ _ _ _ h (hinv.mono (Nat.le_succ _))
      · rcases tagLoop_fresh std i field.Name (Split field.tag ',') info with
          ⟨_, h2⟩ | ⟨_, b, h2, h3, _⟩
        · rw [h2] at h
          simp only at h
          split at h
          · exact ih _ _ _ _ _ h (hinv.mono (Nat.le_succ _))
          · cases h
          · cases h
          · cases h
        · rw [h2] at h
          simp only at h
          split at h
          · exact ih _ _ _ _ _ h (hinv.concat h3)
          · cases h
          · cases h
          · cases h

theorem register_inv {std : Std} {obj : List Field} {description : List String}
    {opts : Options} {info : List parse_info}
    (h : register std obj description = .returned (opts, info)) :
    IndexInv obj.length info := by
  have := registerFields_inv std obj 0 _ _ _ _ h ⟨List.Pairwise.nil, by simp⟩
  simpa using this

/-! ## The write-back pass -/

/-- A write changes the value of the field of the binding and nothing else: the other
fields and the kind of every field stay. -/
theorem writeField_frame {std : Std} {inf : parse_info} {v : String}
    {obj obj1 : List Field} (h : writeField std inf v obj = .returned obj1) :
    obj1.length = obj.length ∧ (∀ j : Nat, j ≠ inf.index → obj1[j]? = obj[j]?) ∧
      (∀ j : Nat, (obj1[j]?).map Field.kind = (obj[j]?).map Field.kind) := by
  unfold writeField at h
  split at h
  · cases h
  · rename_i field hfield
    have key : ∀ (x : GoValue), (obj.set inf.index { field with value := x }).length = obj.length ∧
        (∀ j : Nat, j ≠ inf.index →
          (obj.set inf.index { field with value := x })[j]? = obj[j]?) ∧
        (∀ j : Nat, ((obj.set inf.index { field with value := x })[j]?).map Field.kind =
          (obj[j]?).map Field.kind) := by
      intro x
      refine ⟨List.length_set _ _ _, ?_, ?_⟩
      · intro j hj
        exact List.getElem?_set_ne (fun hc => hj hc.symm)
      · intro j
        by_cases hj : inf.index = j
        · subst hj
          rw [List.getElem?_set_self', hfield]
          rfl
        · rw [List.getElem?_set_ne hj]
    split at h
    all_goals first
      | (cases h; exact ⟨rfl, fun _ _ => rfl, fun _ => rfl⟩)
      | (cases h; exact key _)
      | (split at h
         · cases h
         · cases h; exact key _)

/-- A write for a field of the struct does not panic. -/
theorem writeField_no_panic {std : Std} {inf : parse_info} {v : String}
    {obj : List Field} (hlt : inf.index < obj.length) :
    (∃ obj1, writeField std inf v obj = .returned obj1) ∨
      ∃ m h, writeField std inf v obj = .fatal m h := by
  unfold writeField
  rw [List.getElem?_eq_getElem hlt]
  simp only
  split
  all_goals first
    | exact Or.inl ⟨_, rfl⟩
    | (split
       · exact Or.inr ⟨_, _, rfl⟩
       · exact Or.inl ⟨_, rfl⟩)

/-- A field keeps its value when every binding for it looked up the empty string; so does a
field without a binding. -/
theorem writeBack_unchanged (std : Std) (flags required optional : StrMap) (i : Nat) :
    ∀ (info : List parse_info) (obj obj1 : List Field),
      writeBack std flags required optional info obj = .returned obj1 →
      (∀ inf ∈ info, inf.index = i → elementValue inf flags required optional = "") →
      obj1[i]? = obj[i]? := by
  intro info
  induction info with
  | nil => intro obj obj1 h _; simp only [writeBack] at h; cases h; rfl
  | cons x info ih =>
    intro obj obj1 h hno
    have hno1 : ∀ inf ∈ info, inf.index = i → elementValue inf flags required optional = "" :=
      fun inf hinf => hno inf (List.mem_cons_of_mem _ hinf)
    simp only [writeBack] at h
    split at h
    · rename_i hv
      have hx : i ≠ x.index := fun hc => hv (hno x (List.mem_cons_self _ _) hc.symm)
      split at h
      · rename_i obj2 hw
        rw [ih obj2 obj1 h hno1]
        exact (writeField_frame hw).2.1 i hx
      · cases h
      · cases h
      · cases h
    · exact ih obj obj1 h hno1

theorem writeField_signed {std : Std} {inf : parse_info} {v : String} {obj : List Field}
    {k : Kind} (hk : (obj[inf.index]?).map Field.kind = some k)
    (hs : k ∈ [Kind.Int, Kind.Int8, Kind.Int16, Kind.Int32, Kind.Int64])
    (ha : Atoi std.IntSize v = none) :
    writeField std inf v obj =
      .fatal (coercionError std inf) "Please ensure that it is an positive integer" := by
  cases hf : obj[inf.index]? with
  | none => rw [hf] at hk; cases hk
  | some field =>
    rw [hf] at hk
    simp only [Option.map_some', Option.some.injEq] at hk
    simp only [List.mem_cons, List.mem_singleton, List.not_mem_nil, or_false] at hs
    unfold writeField
    rw [hf]
    simp only
    rcases hs with h | h | h | h | h <;> rw [h] at hk <;> simp [hk, ha]

theorem writeField_bool {std : Std} {inf : parse_info} {v : String} {obj : List Field}
    {field : Field} (hf : obj[inf.index]? = some field) (hk : field.kind = Kind.Bool)
    (hp : ParseBool v = none) :
    writeField std inf v obj =
      .returned (obj.set inf.index { field with value := .bool false }) := by
  unfold writeField
  rw [hf]
  simp [hk, hp]

/-- A binding of a signed integer field whose looked-up string `Atoi` refuses ends the
write-back in the fatal error. -/
theorem writeBack_fatal (std : Std) (flags required optional : StrMap) (inf : parse_info)
    (k : Kind) (hs : k ∈ [Kind.Int, Kind.Int8, Kind.Int16, Kind.Int32, Kind.Int64])
    (hv : elementValue inf flags required optional ≠ "")
    (ha : Atoi std.IntSize (elementValue inf flags required optional) = none) :
    ∀ (info : List parse_info) (obj : List Field), inf ∈ info →
      (∀ x ∈ info, x.index < obj.length) →
      (obj[inf.index]?).map Field.kind = some k →
      ∃ m h, writeBack std flags required optional info obj = .fatal m h := by
  intro info
  induction info with
  | nil => intro obj hmem; cases hmem
  | cons x info ih =>
    intro obj hmem hlt hk
    have hlt1 : ∀ y ∈ info, y.index < obj.length :=
      fun y hy => hlt y (List.mem_cons_of_mem _ hy)
    simp only [writeBack]
    by_cases hx : elementValue x flags required optional = ""
    · simp only [hx, ne_eq, not_true_eq_false, if_false]
      rcases List.mem_cons.mp hmem with h | h
      · rw [← h] at hx; exact absurd hx hv
      · exact ih obj h hlt1 hk
    · simp only [ne_eq, hx, not_false_eq_true, if_true]
      rcases List.mem_cons.mp hmem with h | h
      · rw [← h, writeField_signed hk hs ha]
        exact ⟨_, _, rfl⟩
      · rcases @writeField_no_panic std x (elementValue x flags required optional) obj
          (hlt x (List.mem_cons_self _ _)) with ⟨obj2, hw⟩ | ⟨m, e, hw⟩
        · rw [hw]
          simp only
          obtain ⟨hl, _, hkind⟩ := writeField_frame hw
          apply ih obj2 h
          · intro y hy; rw [hl]; exact hlt1 y hy
          · rw [hkind]; exact hk
        · rw [hw]
          exact ⟨_, _, rfl⟩

/-- A binding of a boolean field whose looked-up string `ParseBool` refuses leaves the field
at `false`. -/
theorem writeBack_bool (std : Std) (flags required optional : StrMap) (inf : parse_info)
    (field : Field) (hk : field.kind = Kind.Bool)
    (hv : elementValue inf flags required optional ≠ "")
    (hp : ParseBool (elementValue inf flags required optional) = none) :
    ∀ (info : List parse_info) (obj obj1 : List Field), inf ∈ info →
      info.Pairwise (fun a b => a.index < b.index) →
      obj[inf.index]? = some field →
      writeBack std flags required optional info obj = .returned obj1 →
      obj1[inf.index]? = some { field with value := .bool false } := by
  intro info
  induction info with
  | nil => intro obj obj1 hmem; cases hmem
  | cons x info ih =>
    intro obj obj1 hmem hpw hf h
    obtain ⟨hx, hpw1⟩ := List.pairwise_cons.mp hpw
    simp only [writeBack] at h
    rcases List.mem_cons.mp hmem with he | he
    · subst he
      rw [if_pos hv, writeField_bool hf hk hp] at h
      simp only at h
      rw [writeBack_unchanged std flags required optional inf.index info _ obj1 h
        (fun y hy hc => absurd hc (Nat.ne_of_gt (hx y hy)))]
      rw [List.getElem?_set_self', hf]
      rfl
    · have hne : inf.index ≠ x.index := Nat.ne_of_gt (hx inf he)
      split at h
      · split at h
        · rename_i obj2 hw
          apply ih obj2 obj1 he hpw1 _ h
          rw [(writeField_frame hw).2.1 inf.index hne]
          exact hf
        · cases h
        · cases h
        · cases h
      · exact ih obj obj1 he hpw1 hf h

/-! ## `Atoi` -/

theorem digits_fold_none (l : List Char) :
    l.foldl (fun (acc : Option Nat) c =>
      match acc with
      | none => none
      | some n => if '0' ≤ c ∧ c ≤ '9' then some (n * 10 + (c.toNat - 48)) else none) none
      = none := by
  induction l with
  | nil => rfl
  | cons c l ih => simpa using ih

theorem digits_fold_some (l : List Char) :
    ∀ (acc : Option Nat) (m : Nat),
      l.foldl (fun (acc : Option Nat) c =>
        match acc with
        | none => none
        | some n => if '0' ≤ c ∧ c ≤ '9' then some (n * 10 + (c.toNat - 48)) else none) acc
        = some m → ∀ c ∈ l, '0' ≤ c ∧ c ≤ '9' := by
  induction l with
  | nil => intro acc m _ c hc; cases hc
  | cons d l ih =>
    intro acc m h c hc
    simp only [List.foldl_cons] at h
    cases acc with
    | none =>
      simp only at h
      rw [digits_fold_none] at h
      cases h
    | some n =>
      simp only at h
      by_cases hd : '0' ≤ d ∧ d ≤ '9'
      · rw [if_pos hd] at h
        rcases List.mem_cons.mp hc with rfl | hc
        · exact hd
        · exact ih _ m h c hc
      · rw [if_neg hd, digits_fold_none] at h
        cases h

theorem digits_some {ds : List Char} {n : Nat} (h : digits ds = some n) :
    ds ≠ [] ∧ ∀ c ∈ ds, '0' ≤ c ∧ c ≤ '9' := by
  cases ds with
  | nil => simp [digits] at h
  | cons d ds =>
    refine ⟨by simp, ?_⟩
    simp only [digits] at h
    exact digits_fold_some (d :: ds) (some 0) n h

/-- What `Atoi` accepts is a base-10 integer. -/
theorem Atoi_decimal {intSize : Nat} {s : String} {v : Int} (h : Atoi intSize s = some v) :
    IsDecimal s := by
  unfold Atoi at h
  dsimp only at h
  split at h
  · cases h
  · rename_i n hn
    split at hn
    · rename_i r heq
      obtain ⟨hne, hall⟩ := digits_some hn
      exact ⟨['-'], r, Or.inr (Or.inl rfl), hne, hall, by rw [heq]; rfl⟩
    · rename_i r heq
      obtain ⟨hne, hall⟩ := digits_some hn
      exact ⟨['+'], r, Or.inr (Or.inr rfl), hne, hall, by rw [heq]; rfl⟩
    · obtain ⟨hne, hall⟩ := digits_some hn
      exact ⟨[], s.data, Or.inl rfl, hne, hall, rfl⟩

theorem IsDecimal.last_digit {s : String} (h : IsDecimal s) :
    ∃ c, s.data.getLast? = some c ∧ '0' ≤ c ∧ c ≤ '9' := by
  obtain ⟨sign, ds, _, hne, hall, heq⟩ := h
  refine ⟨ds.getLast hne, ?_, hall _ (List.getLast_mem hne)⟩
  rw [heq, List.getLast?_append, List.getLast?_eq_getLast ds hne]
  rfl

/-! ## Statements of the specification, continued -/

/-- C11: no declaration call yields a long-only flag. `Long_flag` on a name that is not
declared panics instead of adding the flag, and on a declared name it keeps the short form
that `Flag` or `Short_flag` gave the entry. -/
theorem C11_long_flag_cannot_declare_long_only :
    (Opts "").Long_flag "addr" "" [] =
      .panic "invalid flag added 2 flags can not share the name addr" ∧
    (Opts "").declareAll [.Flag "addr" "" [], .Long_flag "addr" "" []] =
      .returned ⟨[("addr", ⟨true, true, true, ""⟩)], [], [], ""⟩ ∧
    (Opts "").declareAll [.Short_flag "addr" "" [], .Long_flag "addr" "" []] =
      .returned ⟨[("addr", ⟨true, true, true, ""⟩)], [], [], ""⟩ :=
  ⟨by decide, by decide, by decide⟩

/-- C12: `Required` fails exactly when the name is empty or already in the required list,
`Optional` exactly when the name is empty or already in the optional list; otherwise the
pair is appended at the end of that list and nothing else changes; so in every registry
built from `Opts` the names within each list are non-empty and pairwise distinct. -/
theorem C12_required_and_optional_declarations (opt : Options) (name desc : String) :
    ((∃ e, opt.Required name desc = .panic e) ↔
      (name = "" ∨ name ∈ names opt.required_values)) ∧
    (¬ (name = "" ∨ name ∈ names opt.required_values) →
      opt.Required name desc =
        .returned { opt with required_values := opt.required_values ++ [⟨name, desc⟩] }) ∧
    ((∃ e, opt.Optional name desc = .panic e) ↔
      (name = "" ∨ name ∈ names opt.optional_values)) ∧
    (¬ (name = "" ∨ name ∈ names opt.optional_values) →
      opt.Optional name desc =
        .returned { opt with optional_values := opt.optional_values ++ [⟨name, desc⟩] }) ∧
    (∀ (description : String) (ds : List Decl) (opt1 : Options),
      (Opts description).declareAll ds = .returned opt1 →
      (names opt1.required_values).Nodup ∧ (∀ n ∈ names opt1.required_values, n ≠ "") ∧
      (names opt1.optional_values).Nodup ∧ (∀ n ∈ names opt1.optional_values, n ≠ "")) := by
  refine ⟨?_, ?_, ?_, ?_, ?_⟩
  · by_cases hn : name = ""
    · simp [Options.Required, hn]
    · by_cases hm : name ∈ names opt.required_values
      · have := (any_name_iff opt.required_values name).mpr hm
        simp [Options.Required, hn, this, hm]
      · have : ¬ opt.required_values.any (fun info => info.name = name) = true :=
          fun h => hm ((any_name_iff _ _).mp h)
        simp [Options.Required, hn, this, hm]
  · intro h
    have hn : ¬ name = "" := fun hc => h (Or.inl hc)
    have : ¬ opt.required_values.any (fun info => info.name = name) = true :=
      fun hc => h (Or.inr ((any_name_iff _ _).mp hc))
    simp [Options.Required, hn, this]
  · by_cases hn : name = ""
    · simp [Options.Optional, hn]
    · by_cases hm : name ∈ names opt.optional_values
      · have := (any_name_iff opt.optional_values name).mpr hm
        simp [Options.Optional, hn, this, hm]
      · have : ¬ opt.optional_values.any (fun info => info.name = name) = true :=
          fun h => hm ((any_name_iff _ _).mp h)
        simp [Options.Optional, hn, this, hm]
  · intro h
    have hn : ¬ name = "" := fun hc => h (Or.inl hc)
    have : ¬ opt.optional_values.any (fun info => info.name = name) = true :=
      fun hc => h (Or.inr ((any_name_iff _ _).mp hc))
    simp [Options.Optional, hn, this]
  · intro description ds opt1 h
    obtain ⟨_, hr, ho⟩ := declareAll_wellFormed ds _ _ (Opts_wellFormed description) h
    obtain ⟨hr1, ho1⟩ := declareAll_value_names ds _ _
      (by simp [Opts, names]) h
    exact ⟨hr, hr1, ho, ho1⟩

/-- C13: when `Parse` returns, a field keeps exactly its value if every binding for it
looked up the empty string in the mapping that its kind selects; in particular a field
without a binding is not modified. -/
theorem C13_defaults_are_preserved (std : Std) (obj obj1 : List Field)
    (args description : List String) (opts : Options) (info : List parse_info)
    (flags required optional : StrMap) (i : Nat)
    (hreg : register std obj description = .returned (opts, info))
    (hparse : opts.Parse args = .returned (flags, required, optional))
    (hret : Parse std obj args description = .returned obj1)
    (hno : ∀ inf ∈ info, inf.index = i → elementValue inf flags required optional = "") :
    obj1[i]? = obj[i]? := by
  simp only [Parse, hreg, hparse] at hret
  exact writeBack_unchanged std flags required optional i info obj obj1 hret hno

/-- C13 on the struct with the boolean field `Verbose` (default `false`, tag `flag`) and the
untagged field `Level`: without the flag both fields keep their values; with `--Verbose`
the first becomes `true` and `Level`, which has no binding, stays as it was. -/
theorem C13_defaults_are_preserved_witness :
    Parse asciiStd [⟨"Verbose", true, "flag", .Bool, .bool false⟩,
        ⟨"Level", true, "", .Int, .int 3⟩] ["prog"] [] =
      .returned [⟨"Verbose", true, "flag", .Bool, .bool false⟩,
        ⟨"Level", true, "", .Int, .int 3⟩] ∧
    Parse asciiStd [⟨"Verbose", true, "flag", .Bool, .bool false⟩,
        ⟨"Level", true, "", .Int, .int 3⟩] ["prog", "--Verbose"] [] =
      .returned [⟨"Verbose", true, "flag", .Bool, .bool true⟩,
        ⟨"Level", true, "", .Int, .int 3⟩] ∧
    ([⟨"Verbose", true, "flag", .Bool, .bool true⟩, ⟨"Level", true, "", .Int, .int 3⟩] :
        List Field)[1]? =
      ([⟨"Verbose", true, "flag", .Bool, .bool false⟩, ⟨"Level", true, "", .Int, .int 3⟩] :
        List Field)[1]? :=
  ⟨by decide, by decide,
   C13_defaults_are_preserved asciiStd
    [⟨"Verbose", true, "flag", .Bool, .bool false⟩, ⟨"Level", true, "", .Int, .int 3⟩]
    [⟨"Verbose", true, "flag", .Bool, .bool true⟩, ⟨"Level", true, "", .Int, .int 3⟩]
    ["prog", "--Verbose"] [] ⟨[("Verbose", ⟨true, true, false, ""⟩)], [], [], ""⟩
    [⟨0, "Verbose", "", flag_element⟩] [("Verbose", "true")] [] [] 1 (by decide) (by decide)
    (by decide) (by decide)⟩

/-- C14: a bound field of kind `Uint32` is not written: with the default `8080` and the
supplied value `"9090"` the field still holds `8080` when `Parse` returns, while the same
field declared `int`, `uint16` or `uint64` is set to `9090`. -/
theorem C14_uint32_field_is_not_written :
    Parse asciiStd [⟨"Port", true, "required,name=port", .Uint32, .uint 8080⟩]
        ["prog", "9090"] [] =
      .returned [⟨"Port", true, "required,name=port", .Uint32, .uint 8080⟩] ∧
    Parse asciiStd [⟨"Port", true, "required,name=port", .Int, .int 8080⟩]
        ["prog", "9090"] [] =
      .returned [⟨"Port", true, "required,name=port", .Int, .int 9090⟩] ∧
    Parse asciiStd [⟨"Port", true, "required,name=port", .Uint16, .uint 8080⟩]
        ["prog", "9090"] [] =
      .returned [⟨"Port", true, "required,name=port", .Uint16, .uint 9090⟩] ∧
    Parse asciiStd [⟨"Port", true, "required,name=port", .Uint64, .uint 8080⟩]
        ["prog", "9090"] [] =
      .returned [⟨"Port", true, "required,name=port", .Uint64, .uint 9090⟩] :=
  ⟨by decide, by decide, by decide, by decide⟩

/-- C15: for a binding of a field of the struct whose looked-up string is not empty: when
the field is of a signed integer kind and the string is not a base-10 integer, `Parse` ends
in a fatal error; when the field is boolean and the string is not a parsable boolean, the
write makes no error and sets the field to `false`, which is its value when `Parse`
returns. -/
theorem C15_coercion_failure_asymmetry (std : Std) (obj : List Field)
    (args description : List String) (opts : Options) (info : List parse_info)
    (flags required optional : StrMap) (inf : parse_info) (field : Field)
    (hreg : register std obj description = .returned (opts, info))
    (hparse : opts.Parse args = .returned (flags, required, optional))
    (hinf : inf ∈ info) (hfield : obj[inf.index]? = some field)
    (hv : elementValue inf flags required optional ≠ "") :
    (field.kind ∈ [Kind.Int, Kind.Int8, Kind.Int16, Kind.Int32, Kind.Int64] →
      ¬ IsDecimal (elementValue inf flags required optional) →
      ∃ m h, Parse std obj args description = .fatal m h) ∧
    (field.kind = Kind.Bool → ParseBool (elementValue inf flags required optional) = none →
      writeField std inf (elementValue inf flags required optional) obj =
        .returned (obj.set inf.index { field with value := .bool false }) ∧
      ∀ obj1, Parse std obj args description = .returned obj1 →
        obj1[inf.index]? = some { field with value := .bool false }) := by
  obtain ⟨hpw, hlt⟩ := register_inv hreg
  refine ⟨fun hk hnd => ?_, fun hk hp => ⟨writeField_bool hfield hk hp, fun obj1 hret => ?_⟩⟩
  · have ha : Atoi std.IntSize (elementValue inf flags required optional) = none := by
      cases h : Atoi std.IntSize (elementValue inf flags required optional) with
      | none => rfl
      | some v => exact absurd (Atoi_decimal h) hnd
    simp only [Parse, hreg, hparse]
    exact writeBack_fatal std flags required optional inf field.kind hk hv ha info obj hinf hlt
      (by rw [hfield]; rfl)
  · simp only [Parse, hreg, hparse] at hret
    exact writeBack_bool std flags required optional inf field hk hv hp info obj obj1 hinf hpw
      hfield hret

/-- C15 on a required `int` field given `abc`, which ends in the fatal error, and on a
required `bool` field with the default `true` given `maybe`, which is set to `false`. -/
theorem C15_coercion_failure_asymmetry_witness :
    (∃ m h, Parse asciiStd [⟨"Port", true, "required", .Int, .int 8080⟩] ["prog", "abc"] [] =
      .fatal m h) ∧
    Parse asciiStd [⟨"Port", true, "required", .Int, .int 8080⟩] ["prog", "abc"] [] =
      .fatal "Invalid default value for option PORT."
        "Please ensure that it is an positive integer" ∧
    Parse asciiStd [⟨"On", true, "required", .Bool, .bool true⟩] ["prog", "maybe"] [] =
      .returned [⟨"On", true, "required", .Bool, .bool false⟩] :=
  ⟨(C15_coercion_failure_asymmetry asciiStd [⟨"Port", true, "required", .Int, .int 8080⟩]
      ["prog", "abc"] [] ⟨[], [], [⟨"Port", ""⟩], ""⟩ [⟨0, "Port", "", required_element⟩]
      [] [("Port", "abc")] [] ⟨0, "Port", "", required_element⟩
      ⟨"Port", true, "required", .Int, .int 8080⟩ (by decide) (by decide) (by decide)
      (by decide) (by decide)).1 (by decide)
      (fun hd => by
        obtain ⟨c, hc, hdig⟩ := hd.last_digit
        have hlast : (elementValue ⟨0, "Port", "", required_element⟩ [] [("Port", "abc")]
            []).data.getLast? = some 'c' := by decide
        rw [hlast] at hc
        cases hc
        exact absurd hdig.2 (by decide)),
   by decide, by decide⟩

/-- When a token with more than one `=` counts as not recognized and as naming no kind,
every tag with at least one recognized token yields exactly one binding for its field,
whose kind is the kind named by the last kind-identifying token, `Required` when there is
none, wherever the name and description tokens stand. -/
theorem binding_kind_of_a_tag (std : Std) (i : Nat) (fieldName tag : String)
    (info : List parse_info) (h : (Split tag ',').any (recognized std) = true) :
    ∃ b, tagLoop std i fieldName (Split tag ',') info false = .returned (info ++ [b], true) ∧
      b.index = i ∧ b.typ = lastKind (tokenKind std) (Split tag ',') := by
  rcases tagLoop_fresh std i fieldName (Split tag ',') info with ⟨h1, _⟩ | ⟨_, h2⟩
  · rw [h] at h1; cases h1
  · exact h2

/-- The tag `name=port,optional,desc=x,FLAG=Short` yields one binding, of the kind of the
last kind token, the short flag. -/
theorem binding_kind_of_a_tag_example :
    (∃ b, tagLoop asciiStd 0 "Port" (Split "name=port,optional,desc=x,FLAG=Short" ',') []
        false = .returned ([] ++ [b], true) ∧
      b.index = 0 ∧
      b.typ = lastKind (tokenKind asciiStd) (Split "name=port,optional,desc=x,FLAG=Short" ',')) ∧
    tagLoop asciiStd 0 "Port" (Split "name=port,optional,desc=x,FLAG=Short" ',') [] false =
      .returned ([⟨0, "port", "x", sflag_element⟩], true) ∧
    lastKind (tokenKind asciiStd) (Split "name=port,optional,desc=x,FLAG=Short" ',') =
      sflag_element :=
  ⟨binding_kind_of_a_tag asciiStd 0 "Port" "name=port,optional,desc=x,FLAG=Short" []
    (by decide), by decide, by decide⟩

/-- C16: on the tag `sflag,flag=a=b` the last kind-identifying token is `flag=a=b`, a
`flag=<other>`, which names the kind of a flag with both forms, but the scan of the tag
drops a token with two `=` and binds the field as a short flag, where `sflag,flag=x` binds
it as a flag with both forms; a field tagged `flag=a=b` alone gets no binding at all and
`Parse` panics on the empty list of bindings. -/
theorem C16_token_with_two_equals_is_dropped :
    lastKind (statedTokenKind asciiStd) (Split "sflag,flag=a=b" ',') = flag_element ∧
    tagLoop asciiStd 0 "Port" (Split "sflag,flag=a=b" ',') [] false =
      .returned ([⟨0, "Port", "", sflag_element⟩], true) ∧
    tagLoop asciiStd 0 "Port" (Split "sflag,flag=x" ',') [] false =
      .returned ([⟨0, "Port", "", flag_element⟩], true) ∧
    tagLoop asciiStd 0 "Port" (Split "flag=a=b" ',') [] false = .returned ([], false) ∧
    Parse asciiStd [⟨"Port", true, "flag=a=b", .Int, .int 8080⟩] ["prog"] [] =
      .panic "index out of range [-1]" :=
  ⟨by decide, by decide, by decide, by decide, by decide⟩

/-- C17: an exported field whose tag holds no recognized token is not skipped: as the first
bound field it makes `Parse` panic on the empty list of bindings, and behind a bound field
it declares that field's binding a second time, which panics as a duplicate; without the
field the same call returns. -/
theorem C17_field_without_recognized_token_is_not_skipped :
    Parse asciiStd [⟨"Port", true, "bogus", .Int, .int 8080⟩] ["prog", "9090"] [] =
      .panic "index out of range [-1]" ∧
    Parse asciiStd [⟨"Port", true, "required", .Int, .int 8080⟩,
        ⟨"Host", true, "bogus", .String, .string "localhost"⟩] ["prog", "9090"] [] =
      .panic "invalid required value added 2 items can not share the name Port" ∧
    Parse asciiStd [⟨"Port", true, "required", .Int, .int 8080⟩] ["prog", "9090"] [] =
      .returned [⟨"Port", true, "required", .Int, .int 9090⟩] :=
  ⟨by decide, by decide, by decide⟩

/-- C18: the values of `name=` and `desc=` are not taken as written: `name=Port` binds the
name `port` and `desc=Listen Port` the description `listen port`, because the whole token
is lowered first, and the token `desc=a=b` is dropped with its text. -/
theorem C18_name_and_description_are_lowered :
    register asciiStd [⟨"Port", true, "name=Port,desc=Listen Port", .Int, .int 8080⟩] [] =
      .returned (⟨[], [], [⟨"port", "listen port"⟩], ""⟩,
        [⟨0, "port", "listen port", required_element⟩]) ∧
    register asciiStd [⟨"Port", true, "required,desc=a=b", .Int, .int 8080⟩] [] =
      .returned (⟨[], [], [⟨"Port", ""⟩], ""⟩, [⟨0, "Port", "", required_element⟩]) :=
  ⟨by decide, by decide⟩

/-- C19: `Help` does not finish on the registry with the required values `a` and `bb`: the
padding loop of the row of `a` never changes its counter, so no amount of fuel brings the
call to `os.Exit(0)`; with the names `aa` and `bb`, where nothing is padded, it does. -/
theorem C19_help_padding_loop_runs_forever :
    (∀ fuel, Options.Help asciiStd "prog" fuel ⟨[], [], [⟨"a", ""⟩, ⟨"bb", ""⟩], ""⟩ = none) ∧
    (∀ fuel, Options.Help asciiStd "prog" fuel ⟨[], [⟨"mode", ""⟩], [⟨"in", ""⟩], ""⟩ = none) ∧
    (∃ written, Options.Help asciiStd "prog" 1 ⟨[], [], [⟨"aa", ""⟩, ⟨"bb", ""⟩], ""⟩ =
      some (.status0 written)) :=
  ⟨fun fuel => Help_none asciiStd "prog" fuel _ ⟨⟨"a", ""⟩, by decide, by decide⟩,
   fun fuel => Help_none asciiStd "prog" fuel _ ⟨⟨"in", ""⟩, by decide, by decide⟩,
   ⟨_, rfl⟩⟩

/-- C20: a first positional token of one character is rejected in the flag state as a
malformed flag: with the required value `x`, `["prog", "a"]` ends in the fatal format
error, while `["prog", "ab"]` returns, and so does `["prog", "ab", "c"]`, where the token of
one character comes behind the flag state. -/
theorem C20_single_character_token_is_rejected :
    Options.Parse ⟨[], [⟨"y", ""⟩], [⟨"x", ""⟩], ""⟩ ["prog", "a"] =
      .fatal "Invalid argument a all flags must be in the fromat -<name> or --<name>." "" ∧
    Options.Parse ⟨[], [⟨"y", ""⟩], [⟨"x", ""⟩], ""⟩ ["prog", "ab"] =
      .returned ([], [("x", "ab")], []) ∧
    Options.Parse ⟨[], [⟨"y", ""⟩], [⟨"x", ""⟩], ""⟩ ["prog", "ab", "c"] =
      .returned ([], [("x", "ab")], [("y", "c")]) :=
  ⟨by decide, by decide, by decide⟩

/-! ## Index safety of the scan -/

/-- The read of `args[index+1][0]` behind a flag panics on an empty token whenever more
tokens follow the flag than there are required declarations. -/
theorem attach_empty_token (opt : Options) (s : PState) (name : String)
    (more2 : List String) (h : opt.required_values.length < ("" :: more2).length) :
    attach opt s name ("" :: more2) = .panic "index out of range [0] with length 0" := by
  have hb : byteAt "" 0 = none := by decide
  simp only [attach, h, if_true, hb]

/-- A token met in the optional state panics on `optional_values[0]` when no optional value
is declared. -/
theorem body_optional_undeclared (opt : Options) (s : PState) (tok : String)
    (more : List String) (hf : s.parsing_flags = false) (hq : s.parsing_required = false)
    (ho : s.parsing_optional = true) (hnone : opt.optional_values = []) :
    body opt s tok more = .panic "index out of range [0] with length 0" := by
  rw [body_optional opt tok more hf hq]
  simp [ho, hnone]

/-- C21: `Parse` does index out of range on registries built by the declaration calls: with
the value-less flag `verbose`, the empty token behind `-v` makes `args[index+1][0]` panic;
with the required value `file` and no optional value, the token behind the required one
makes `optional_values[0]` panic, and so does any positional token on the registry without
a declaration. These runs end neither in a result nor in a fatal error nor in the help
text. -/
theorem C21_scan_indexes_out_of_range :
    (Opts "").declareAll [.Flag "verbose" "" [false]] =
      .returned ⟨[("verbose", ⟨true, true, false, ""⟩)], [], [], ""⟩ ∧
    Options.Parse ⟨[("verbose", ⟨true, true, false, ""⟩)], [], [], ""⟩ ["prog", "-v", ""] =
      .panic "index out of range [0] with length 0" ∧
    (Opts "").declareAll [.Required "file" ""] = .returned ⟨[], [], [⟨"file", ""⟩], ""⟩ ∧
    Options.Parse ⟨[], [], [⟨"file", ""⟩], ""⟩ ["prog", "in.txt", "extra"] =
      .panic "index out of range [0] with length 0" ∧
    (Opts "").Parse ["prog", "in.txt"] = .panic "index out of range [0] with length 0" ∧
    Options.Parse ⟨[], [], [⟨"file", ""⟩], ""⟩ ["prog", "in.txt"] =
      .returned ([], [("file", "in.txt")], []) :=
  ⟨by decide, by decide, by decide, by decide, by decide, by decide⟩

end Gopts
